import Mathlib

/-!
Shallow embedding of the jlma-cfes validation core (PatternValidator,
TruthScoring, ValidationHooks, SPARCIntegration, ClaudeFlowAdapter.orchestrate)
and proofs about it.  JavaScript strings are modelled as lists of characters,
JavaScript numbers as exact rationals, fallible callbacks as Except-valued
functions.  Wall-clock timing fields (responseTime, performance.now based
budgets) are not modelled; no claim below depends on them.
-/

namespace CFES

/-- JS strings are modelled as lists of characters. -/
abbrev Str := List Char

/-- Convert a Lean string literal to the model type. -/
def strOf (s : String) : Str := s.data

/-- The two JS quote characters recognised by the secret regexes. -/
def isQuote (c : Char) : Bool := c == '"' || c == '\''

/-- JS regex whitespace class (the \s class): ASCII whitespace plus the
Unicode space separators that JavaScript includes. -/
def isJsSpace (c : Char) : Bool :=
  c == ' ' || c == '\t' || c == '\n' || c == '\r' ||
  c.val == 0x0b || c.val == 0x0c ||
  c.val == 0xa0 || c.val == 0x1680 ||
  (0x2000 ≤ c.val && c.val ≤ 0x200a) ||
  c.val == 0x2028 || c.val == 0x2029 || c.val == 0x202f ||
  c.val == 0x205f || c.val == 0x3000 || c.val == 0xfeff

/-- JS regex word-character class (the \w class). -/
def isWordChar (c : Char) : Bool :=
  ('a' ≤ c && c ≤ 'z') || ('A' ≤ c && c ≤ 'Z') || ('0' ≤ c && c ≤ '9') || c == '_'

/-- JS regex digit class (the \d class). -/
def isDigitChar (c : Char) : Bool := '0' ≤ c && c ≤ '9'

namespace PatternValidator

/-!
### The six secret patterns

Source regexes (all with flags gi), from `_compilePatterns().secrets`:

  password:          (?:password|pwd)\s*[=:]\s*["'][^"']\x7b4,\x7d["']
  api_key:           (?:api[_-]?key|apikey)\s*[=:]\s*["'][^"']\x7b10,\x7d["']
  secret:            (?:secret|token)\s*[=:]\s*["'][^"']\x7b8,\x7d["']
  auth_token:        (?:auth[_-]?token)\s*[=:]\s*["'][^"']\x7b10,\x7d["']
  private_key:       (?:private[_-]?key)\s*[=:]\s*["'][^"']\x7b20,\x7d["']
  connection_string: (?:connection[_-]?string|database[_-]?url)\s*[=:]\s*["'][^"']\x7b15,\x7d["']

Each keyword alternation (with the optional [_-]) is expanded into an explicit
list of literal keywords; the alternatives are pairwise incompatible at any
given position, so ordered alternation coincides with trying them in order.
The quantified parts are deterministic: a maximal \s* run is the only one that
can be followed by [=:] or ["'], and a maximal [^"'] run is the only one that
can be followed by ["'].
-/

structure SecretPattern where
  name : String
  keywords : List Str
  minLen : Nat
deriving DecidableEq

def secretPatterns : List SecretPattern :=
  [ ⟨"password", [strOf "password", strOf "pwd"], 4⟩,
    ⟨"api_key", [strOf "api_key", strOf "api-key", strOf "apikey"], 10⟩,
    ⟨"secret", [strOf "secret", strOf "token"], 8⟩,
    ⟨"auth_token", [strOf "auth_token", strOf "auth-token", strOf "authtoken"], 10⟩,
    ⟨"private_key", [strOf "private_key", strOf "private-key", strOf "privatekey"], 20⟩,
    ⟨"connection_string",
      [strOf "connection_string", strOf "connection-string", strOf "connectionstring",
       strOf "database_url", strOf "database-url", strOf "databaseurl"], 15⟩ ]

/-- One match of a secret regex, in structured form.  Flattening the fields in
order reproduces the exact substring the JS regex would return. -/
structure SecretMatch where
  key : Str
  ws1 : Str
  sep : Char
  ws2 : Str
  q1 : Char
  value : Str
  q2 : Char
deriving DecidableEq, Repr

/-- The raw matched substring, as `String.prototype.match` would report it. -/
def SecretMatch.flat (m : SecretMatch) : Str :=
  m.key ++ m.ws1 ++ [m.sep] ++ m.ws2 ++ [m.q1] ++ m.value ++ [m.q2]

/-- Case-insensitive literal match at the head of the input (the i flag);
the keyword is given lowercase. -/
def matchKeyCI : Str → Str → Bool
  | [], _ => true
  | _ :: _, [] => false
  | k :: ks, c :: cs => k == c.toLower && matchKeyCI ks cs

/-- First keyword of the alternation that matches at the head; returns its
length (the alternatives are pairwise incompatible, so at most one matches). -/
def firstKeyword : List Str → Str → Option Nat
  | [], _ => none
  | k :: ks, cs => if matchKeyCI k cs then some k.length else firstKeyword ks cs

/-- Try to match a secret pattern at the start of the input; on success return
the structured match and the remaining input after it. -/
def tryMatchAt (p : SecretPattern) (cs : Str) : Option (SecretMatch × Str) :=
  match firstKeyword p.keywords cs with
  | none => none
  | some n =>
    let key := cs.take n
    let rest1 := cs.drop n
    let ws1 := rest1.takeWhile isJsSpace
    match rest1.dropWhile isJsSpace with
    | [] => none
    | sep :: rest3 =>
      if sep == '=' || sep == ':' then
        let ws2 := rest3.takeWhile isJsSpace
        match rest3.dropWhile isJsSpace with
        | [] => none
        | q1 :: rest5 =>
          if isQuote q1 then
            let value := rest5.takeWhile (fun c => !(isQuote c))
            match rest5.dropWhile (fun c => !(isQuote c)) with
            | [] => none
            | q2 :: rest7 =>
              if p.minLen ≤ value.length then
                some (⟨key, ws1, sep, ws2, q1, value, q2⟩, rest7)
              else none
          else none
      else none

/-- Global scan (the g flag): leftmost matches, continuing after each match.
The fuel argument bounds the recursion; it is instantiated with the input
length, which always suffices because every step consumes at least one
character. -/
def scanSecretsAux (p : SecretPattern) : Nat → Str → List SecretMatch
  | 0, _ => []
  | _, [] => []
  | Nat.succ fuel, c :: cs =>
    match tryMatchAt p (c :: cs) with
    | some (m, rest) => m :: scanSecretsAux p fuel rest
    | none => scanSecretsAux p fuel cs

/-- All matches of one secret pattern in the input, leftmost first. -/
def scanSecrets (p : SecretPattern) (cs : Str) : List SecretMatch :=
  scanSecretsAux p cs.length cs

/-!
### `_maskSecret`

Source: `secret.replace(/["']([^"']\x7b4,\x7d)["']/, cb)` where the callback
returns the match unchanged when the captured value has length at most 4 and
otherwise rebuilds it as `"` + first 2 chars + `*` repeated
min(len-4, 20) times + last 2 chars + `"` (always double quotes).
-/

/-- Leftmost match of the mask regex: decompose the input as
prefix / opening quote / value (at least 4 non-quote chars) / closing quote /
suffix, if such a match exists. -/
def findQuotedRun : Str → Option (Str × Char × Str × Char × Str)
  | [] => none
  | c :: cs =>
    let next := (findQuotedRun cs).map fun (pre, a, v, b, post) => (c :: pre, a, v, b, post)
    if isQuote c then
      let v := cs.takeWhile (fun x => !(isQuote x))
      match cs.dropWhile (fun x => !(isQuote x)) with
      | q2 :: post => if 4 ≤ v.length then some ([], c, v, q2, post) else next
      | [] => next
    else next

/-- The masked replacement for a captured value of length at least 5. -/
def maskedValue (v : Str) : Str :=
  ['"'] ++ v.take 2 ++ List.replicate (min (v.length - 4) 20) '*' ++ v.drop (v.length - 2) ++ ['"']

/-- `_maskSecret` from the source: replace the first quoted run of at least 4
non-quote characters, keeping the match unchanged when the captured value has
length at most 4. -/
def maskSecret (s : Str) : Str :=
  match findQuotedRun s with
  | none => s
  | some (pre, _, v, _, post) =>
    if v.length ≤ 4 then s
    else pre ++ maskedValue v ++ post

/-!
### Existence matchers for the remaining regexes

For every other rule the source only uses whether `code.match(re)` is null or
`re.test(code)`, so those regexes are embedded as nondeterministic matchers:
a matcher maps an input to the list of possible remainders after consuming a
matching prefix, and a regex matches the text iff some start position yields a
nonempty remainder list.  This is exactly regex-existence semantics; greedy
versus lazy quantifiers only affect match extents, not existence.
-/

abbrev Matcher := Str → List Str

/-- Match one character of a class. -/
def mChar (p : Char → Bool) : Matcher := fun cs =>
  match cs with
  | [] => []
  | c :: rest => if p c then [rest] else []

/-- Match a literal, case-sensitively. -/
def mLit (lit : String) : Matcher := fun cs =>
  if List.isPrefixOf lit.data cs then [cs.drop lit.data.length] else []

/-- Match a literal case-insensitively (the i flag); literal given lowercase. -/
def mLitCI (lit : String) : Matcher := fun cs =>
  if matchKeyCI lit.data cs then [cs.drop lit.data.length] else []

/-- Sequencing of matchers. -/
def mSeq (a b : Matcher) : Matcher := fun cs => (a cs).flatMap b

/-- Alternation of matchers. -/
def mAlt (a b : Matcher) : Matcher := fun cs => a cs ++ b cs

/-- All remainders after consuming zero or more characters of a class
(a star over a character class). -/
def starSuffixes (p : Char → Bool) : Str → List Str
  | [] => [[]]
  | c :: cs => (c :: cs) :: (if p c then starSuffixes p cs else [])

def mStarCl (p : Char → Bool) : Matcher := starSuffixes p

/-- One or more characters of a class. -/
def mPlusCl (p : Char → Bool) : Matcher := mSeq (mChar p) (mStarCl p)

/-- Exactly n characters of a class. -/
def mExactCl (p : Char → Bool) : Nat → Matcher
  | 0 => fun cs => [cs]
  | n + 1 => mSeq (mChar p) (mExactCl p n)

/-- Negative lookahead on a literal. -/
def mNotLit (lit : String) : Matcher := fun cs =>
  if List.isPrefixOf lit.data cs then [] else [cs]

/-- The JS dot: any character except a newline. -/
def notNl (c : Char) : Bool := !(c == '\n')

/-- Any character (the [\s\S] class). -/
def anyCh (_ : Char) : Bool := true

/-- A character which is neither quote (the [^"'] class). -/
def notQuote (c : Char) : Bool := !(isQuote c)

def seqs : List Matcher → Matcher
  | [] => fun cs => [cs]
  | m :: ms => mSeq m (seqs ms)

/-- Does the regex match anywhere in the input? -/
def reTest (m : Matcher) (cs : Str) : Bool :=
  !(m cs).isEmpty ||
    match cs with
    | [] => false
    | _ :: rest => reTest m rest

/-- Like reTest but requiring a word boundary before the match (for patterns
starting with a backslash-b followed by a word character): the previous
character, when there is one, must not be a word character. -/
def reTestWB (m : Matcher) (prev : Option Char) (cs : Str) : Bool :=
  ((match prev with | none => true | some c => !(isWordChar c)) && !(m cs).isEmpty) ||
    match cs with
    | [] => false
    | c :: rest => reTestWB m (some c) rest

/-! ### The SQL-injection, XSS, command-injection and performance rules -/

def sqlStringConcat : Matcher :=
  seqs [mAlt (mLitCI "query") (mLitCI "sql"), mStarCl isJsSpace,
    mChar (fun c => c == '+' || c == '='), mStarCl isJsSpace, mChar isQuote,
    mStarCl notNl, mChar isQuote, mStarCl isJsSpace, mChar (fun c => c == '+')]

def sqlTemplateLiteral : Matcher :=
  seqs [mAlt (mAlt (mLitCI "select") (mLitCI "insert")) (mAlt (mLitCI "update") (mLitCI "delete")),
    mStarCl notNl, mChar (fun c => c == '$'), mChar (fun c => c == '\x7b'),
    mStarCl notNl, mChar (fun c => c == '\x7d')]

def sqlInterpolation : Matcher :=
  seqs [mAlt (mLitCI "query") (mLitCI "execute"), mStarCl isJsSpace,
    mChar (fun c => c == '('), mStarCl isJsSpace, mChar isQuote, mStarCl notNl,
    mChar (fun c => c == '$'), mChar (fun c => c == '\x7b'), mStarCl notNl,
    mChar (fun c => c == '\x7d'), mStarCl notNl, mChar isQuote]

def xssInnerHTML : Matcher :=
  seqs [mLit ".innerHTML", mStarCl isJsSpace, mChar (fun c => c == '=')]

def xssDocumentWrite : Matcher :=
  seqs [mLit "document.write", mStarCl isJsSpace, mChar (fun c => c == '(')]

def xssEval : Matcher :=
  seqs [mLit "eval", mStarCl isJsSpace, mChar (fun c => c == '(')]

def xssDangerously : Matcher := mLit "dangerouslySetInnerHTML"

def cmdExecConcat : Matcher :=
  seqs [mLitCI "exec", mStarCl isJsSpace, mChar (fun c => c == '('),
    mStarCl isJsSpace, mChar isQuote, mStarCl notNl,
    mChar (fun c => c == '$'), mChar (fun c => c == '\x7b'),
    mStarCl notNl, mChar (fun c => c == '\x7d')]

def cmdSpawnConcat : Matcher :=
  seqs [mLitCI "spawn", mStarCl isJsSpace, mChar (fun c => c == '('),
    mStarCl isJsSpace, mChar isQuote, mStarCl notNl, mChar (fun c => c == '+')]

def cmdShellInterpolation : Matcher :=
  seqs [mLitCI "child_process", mStarCl notNl,
    mChar (fun c => c == '$'), mChar (fun c => c == '\x7b')]

def hashMapStd : Matcher := mLit "std::collections::HashMap"

def hashSetStd : Matcher := mLit "std::collections::HashSet"

def hashMapNew : Matcher :=
  seqs [mLit "HashMap", mStarCl isJsSpace, mLit "::", mStarCl isJsSpace,
    mLit "new", mStarCl isJsSpace, mChar (fun c => c == '(')]

def hashMapGeneric : Matcher :=
  seqs [mLit "HashMap", mStarCl isJsSpace, mChar (fun c => c == '<')]

def perfNestedLoops : Matcher :=
  seqs [mLit "for", mStarCl isJsSpace, mChar (fun c => c == '('),
    mStarCl (fun c => !(c == ')')), mChar (fun c => c == ')'), mStarCl isJsSpace,
    mChar (fun c => c == '\x7b'), mStarCl (fun c => !(c == '\x7d')),
    mLit "for", mStarCl isJsSpace, mChar (fun c => c == '('),
    mStarCl (fun c => !(c == ')')), mChar (fun c => c == ')')]

def perfJsonDeepClone : Matcher :=
  seqs [mLit "JSON.parse", mStarCl isJsSpace, mChar (fun c => c == '('),
    mStarCl isJsSpace, mLit "JSON.stringify"]

/-- First character of a JS identifier as used by the spread rule. -/
def idStart (c : Char) : Bool :=
  ('a' ≤ c && c ≤ 'z') || ('A' ≤ c && c ≤ 'Z') || c == '_' || c == '$'

def idChar (c : Char) : Bool := idStart c || isDigitChar c

def perfSpreadInLoop : Matcher :=
  seqs [mLit "...", mChar idStart, mStarCl idChar, mStarCl isJsSpace,
    mChar (fun c => c == ')')]

/-!
### Quality-check helpers used by `validatePost`
-/

def tryCatchRe : Matcher :=
  seqs [mLit "try", mStarCl isJsSpace, mChar (fun c => c == '\x7b'),
    mStarCl anyCh, mChar (fun c => c == '\x7d'), mStarCl isJsSpace, mLit "catch"]

def promiseCatchRe : Matcher :=
  seqs [mLit ".catch", mStarCl isJsSpace, mChar (fun c => c == '(')]

def asyncAwaitRe : Matcher :=
  mAlt (seqs [mLit "async", mPlusCl isJsSpace, mLit "function"])
    (seqs [mLit "async", mStarCl isJsSpace, mChar (fun c => c == '(')])

def awaitRe : Matcher := mSeq (mLit "await") (mPlusCl isJsSpace)

def setIntervalRe : Matcher :=
  seqs [mLit "setInterval", mStarCl isJsSpace, mChar (fun c => c == '(')]

def addEventListenerRe : Matcher :=
  seqs [mLit "addEventListener", mStarCl isJsSpace, mChar (fun c => c == '(')]

structure ErrorHandlingCheck where
  hasProperHandling : Bool
  message : String
deriving Repr

/-- `_checkErrorHandling` from the source. -/
def checkErrorHandling (code : Str) : ErrorHandlingCheck :=
  let hasTryCatch := reTest tryCatchRe code
  let hasPromiseCatch := reTest promiseCatchRe code
  let hasAsyncAwait := reTest asyncAwaitRe code
  let hasAwait := reTest awaitRe code
  let needsErrorHandling := hasAsyncAwait || hasAwait
  let hasProperHandling := hasTryCatch || hasPromiseCatch || !needsErrorHandling
  { hasProperHandling := hasProperHandling,
    message := if needsErrorHandling && !hasProperHandling
      then "Async code without proper error handling" else "Error handling present" }

/-!
The three hardcoded-value regexes are used through `code.match`, whose result
list feeds the issue's `matches` and the count in its message, so they are
embedded as deterministic scanners.  Each is deterministic because every
quantified sub-part is a maximal class run followed by a character outside the
class (shorter runs can never satisfy the following literal).
-/

/-- Match, at the start of the input, one 1-to-3-digit group followed by a
dot; returns the number of characters consumed. -/
def digitsDotAt (cs : Str) : Option Nat :=
  let r := (cs.takeWhile isDigitChar).length
  if 1 ≤ r && r ≤ 3 then
    match cs.drop r with
    | c :: _ => if c == '.' then some (r + 1) else none
    | [] => none
  else none

/-- The IP-address rule ["']\d\x7b1,3\x7d(\.\d\x7b1,3\x7d)x3["'] at the start
of the input; returns consumed length. -/
def ipAt (cs : Str) : Option Nat :=
  match cs with
  | [] => none
  | q :: rest =>
    if isQuote q then
      match digitsDotAt rest with
      | none => none
      | some n1 =>
        match digitsDotAt (rest.drop n1) with
        | none => none
        | some n2 =>
          match digitsDotAt (rest.drop (n1 + n2)) with
          | none => none
          | some n3 =>
            let rest4 := rest.drop (n1 + n2 + n3)
            let r := (rest4.takeWhile isDigitChar).length
            if 1 ≤ r && r ≤ 3 then
              match rest4.drop r with
              | c :: _ => if isQuote c then some (1 + n1 + n2 + n3 + r + 1) else none
              | [] => none
            else none
    else none

/-- The external-URL rule ["'](http|https)://(?!localhost)[^"']+["'] at the
start of the input; returns consumed length. -/
def urlAt (cs : Str) : Option Nat :=
  match cs with
  | [] => none
  | q :: rest =>
    if isQuote q then
      let proto : Option Nat :=
        if List.isPrefixOf (strOf "http://") rest then some 7
        else if List.isPrefixOf (strOf "https://") rest then some 8
        else none
      match proto with
      | none => none
      | some np =>
        let rest2 := rest.drop np
        if List.isPrefixOf (strOf "localhost") rest2 then none
        else
          let body := (rest2.takeWhile notQuote).length
          if body == 0 then none
          else
            match rest2.drop body with
            | _ :: _ => some (1 + np + body + 1)
            | [] => none
    else none

/-- The port-number rule :\s*["']\d\x7b4,5\x7d["'] at the start of the input;
returns consumed length. -/
def portAt (cs : Str) : Option Nat :=
  match cs with
  | [] => none
  | c :: rest =>
    if c == ':' then
      let ws := (rest.takeWhile isJsSpace).length
      match rest.drop ws with
      | [] => none
      | q :: rest2 =>
        if isQuote q then
          let r := (rest2.takeWhile isDigitChar).length
          if 4 ≤ r && r ≤ 5 then
            match rest2.drop r with
            | c2 :: _ => if isQuote c2 then some (1 + ws + 1 + r + 1) else none
            | [] => none
          else none
        else none
    else none

/-- Global scan with a deterministic single-position matcher, collecting the
matched substrings (fuel = input length always suffices). -/
def scanDetAux (detAt : Str → Option Nat) : Nat → Str → List Str
  | 0, _ => []
  | _, [] => []
  | Nat.succ fuel, c :: cs =>
    match detAt (c :: cs) with
    | some n => (c :: cs).take n :: scanDetAux detAt fuel ((c :: cs).drop n)
    | none => scanDetAux detAt fuel cs

def scanDet (detAt : Str → Option Nat) (cs : Str) : List Str :=
  scanDetAux detAt cs.length cs

structure HardcodedCheck where
  found : Bool
  hits : List Str
  message : String
deriving Repr

/-- `_checkHardcodedValues` from the source: the matches of the three patterns
are appended in pattern order. -/
def checkHardcodedValues (code : Str) : HardcodedCheck :=
  let ms := scanDet ipAt code ++ scanDet urlAt code ++ scanDet portAt code
  { found := !ms.isEmpty,
    hits := ms,
    message := if ms.isEmpty then "No hardcoded values found"
      else "Found " ++ toString ms.length ++ " hardcoded value(s)" }

structure LeakCheck where
  potential : Bool
  message : String
deriving Repr

/-- `_checkMemoryLeaks` from the source. -/
def checkMemoryLeaks (code : Str) : LeakCheck :=
  let hasSetInterval := reTest setIntervalRe code
  let hasClearInterval := reTest (mLit "clearInterval") code
  let hasAddEventListener := reTest addEventListenerRe code
  let hasRemoveEventListener := reTest (mLit "removeEventListener") code
  let potentialLeak :=
    (hasSetInterval && !hasClearInterval) ||
    (hasAddEventListener && !hasRemoveEventListener)
  { potential := potentialLeak,
    message := if potentialLeak
      then "Potential memory leak: interval or event listener without cleanup"
      else "No obvious memory leaks detected" }

/-!
### `validatePre` and `validatePost`

Violation fields that only some checks set (`pattern`, `matches`) are
Options.  The matched-substring lists of the SQL/HashMap rules are not
modelled (only match existence reaches the rest of the program and no claim
inspects them); they are recorded as `none`.
-/

structure Violation where
  vtype : String
  pat : Option String := none
  severity : String
  message : String
  hits : Option (List Str) := none
  suggestion : String
deriving DecidableEq, Repr

/-- `_checkSecrets`: one violation per secret pattern with matches, carrying
the masked matched substrings. -/
def checkSecrets (code : Str) : List Violation :=
  secretPatterns.filterMap fun p =>
    let ms := scanSecrets p code
    if ms.isEmpty then none
    else some
      { vtype := "hardcoded_secret", pat := some p.name, severity := "CRITICAL",
        message := "Hardcoded " ++ p.name ++ " detected",
        hits := some (ms.map fun m => maskSecret m.flat),
        suggestion := "Use environment variables: process.env.SECRET_NAME" }

def checkSQLInjection (code : Str) : List Violation :=
  [sqlStringConcat, sqlTemplateLiteral, sqlInterpolation].filterMap fun re =>
    if reTest re code then some
      { vtype := "sql_injection", severity := "CRITICAL",
        message := "SQL injection vulnerability: string concatenation in query",
        suggestion := "Use parameterized queries: db.query(\"SELECT * FROM users WHERE id = ?\", [id])" }
    else none

def xssRules : List (String × Matcher × Bool × String) :=
  [ ("innerHTML", xssInnerHTML, false, "Use textContent or DOM methods"),
    ("document.write", xssDocumentWrite, false, "Use DOM manipulation"),
    ("eval", xssEval, true, "Avoid eval entirely"),
    ("dangerouslySetInnerHTML", xssDangerously, false, "Sanitize HTML first") ]

/-- `_checkXSS`; the eval rule starts with a word boundary, the others have
none. -/
def checkXSS (code : Str) : List Violation :=
  xssRules.filterMap fun (n, re, wb, sugg) =>
    if (if wb then reTestWB re none code else reTest re code) then some
      { vtype := "xss_vulnerability", severity := "CRITICAL",
        message := "XSS vulnerability: " ++ n, suggestion := sugg }
    else none

def checkCommandInjection (code : Str) : List Violation :=
  [cmdExecConcat, cmdSpawnConcat, cmdShellInterpolation].filterMap fun re =>
    if reTest re code then some
      { vtype := "command_injection", severity := "CRITICAL",
        message := "Command injection vulnerability detected",
        suggestion := "Use parameterized command execution or input sanitization" }
    else none

def checkHashMapViolations (code : Str) : List Violation :=
  [hashMapStd, hashSetStd, hashMapNew, hashMapGeneric].filterMap fun re =>
    if reTest re code then some
      { vtype := "hashmap_performance", severity := "HIGH",
        message := "HashMap causes 40% performance regression vs FxHashMap",
        suggestion := "Replace std::collections::HashMap with rustc_hash::FxHashMap" }
    else none

def perfRules : List (String × Matcher × String × String) :=
  [ ("nested_loops", perfNestedLoops,
      "Nested loops detected - O(n2) complexity", "Consider using Map/Set for lookups"),
    ("json_deep_clone", perfJsonDeepClone,
      "JSON.parse(JSON.stringify()) is slow for deep cloning",
      "Use structuredClone() or a proper deep clone library"),
    ("spread_in_loop", perfSpreadInLoop,
      "Spread operator in potential loop", "Pre-allocate arrays for better performance") ]

def checkPerformanceAntiPatterns (code : Str) : List Violation :=
  perfRules.filterMap fun (n, re, msg, sugg) =>
    if reTest re code then some
      { vtype := "performance_antipattern", pat := some n, severity := "MEDIUM",
        message := msg, suggestion := sugg }
    else none

structure PreOptions where
  enableSecurityChecks : Bool := true
  enablePerformanceChecks : Bool := true
  enableQualityChecks : Bool := true
  strictMode : Bool := false
deriving Repr

structure PreResult where
  passed : Bool
  violations : List Violation
  criticalCount : Option Nat
  totalCount : Option Nat
deriving DecidableEq, Repr

/-- `validatePre`.  The early fail-open return (absent or falsy input; an
empty string is falsy in JS) carries no count fields.  The source's object
has no performanceCompliant field in either branch. -/
def validatePre (opts : PreOptions) (code : Str) : PreResult :=
  if code.isEmpty then
    { passed := true, violations := [], criticalCount := none, totalCount := none }
  else
    let violations :=
      (if opts.enableSecurityChecks then
        checkSecrets code ++ checkSQLInjection code ++ checkXSS code ++
          checkCommandInjection code
       else []) ++
      (if opts.enablePerformanceChecks then
        checkHashMapViolations code ++ checkPerformanceAntiPatterns code
       else [])
    let criticalViolations := violations.filter fun v => v.severity == "CRITICAL"
    { passed := if opts.strictMode then violations.isEmpty else criticalViolations.isEmpty,
      violations := violations,
      criticalCount := some criticalViolations.length,
      totalCount := some violations.length }

/-- Input shapes accepted by `validatePost` and `_extractCode`. -/
inductive JsInput where
  | str (s : Str)
  | obj (code content dataCode : Option Str)
  | nullish
deriving Repr

/-- A string field reference is taken only when truthy (nonempty). -/
def truthyField : Option Str → Option Str
  | some s => if s.isEmpty then none else some s
  | none => none

/-- `_extractCode` from the source. -/
def extractCode : JsInput → Option Str
  | .str s => some s
  | .obj c cont dc =>
    match truthyField c with
    | some s => some s
    | none =>
      match truthyField cont with
      | some s => some s
      | none => truthyField dc
  | .nullish => none

structure Issue where
  itype : String
  severity : String
  message : String
  hits : Option (List Str) := none
  suggestion : String
deriving DecidableEq, Repr

structure PostResult where
  passed : Bool
  qualityScore : ℤ
  issues : List Issue
deriving DecidableEq, Repr

/-- `validatePost`: quality score starts at 100; the three checks deduct
15 / 5 / 20 points; the returned score is floored at 0 and the verdict
compares the (unfloored) score against 70. -/
def validatePost (opts : PreOptions) (input : JsInput) : PostResult :=
  let quality :=
    match extractCode input with
    | none => none
    | some code =>
      if !code.isEmpty && opts.enableQualityChecks then some code else none
  match quality with
  | none => { passed := true, qualityScore := 100, issues := [] }
  | some code =>
    let errorHandling := checkErrorHandling code
    let hardcoded := checkHardcodedValues code
    let memoryLeaks := checkMemoryLeaks code
    let issues : List Issue :=
      (if errorHandling.hasProperHandling then [] else
        [{ itype := "missing_error_handling", severity := "MEDIUM",
           message := errorHandling.message,
           suggestion := "Add try-catch blocks or .catch() for promises" }]) ++
      (if hardcoded.found then
        [{ itype := "hardcoded_values", severity := "LOW",
           message := hardcoded.message, hits := some hardcoded.hits,
           suggestion := "Move hardcoded values to configuration" }]
       else []) ++
      (if memoryLeaks.potential then
        [{ itype := "potential_memory_leak", severity := "HIGH",
           message := memoryLeaks.message,
           suggestion := "Ensure proper cleanup of intervals and event listeners" }]
       else [])
    let score : ℤ := 100 -
      (if errorHandling.hasProperHandling then 0 else 15) -
      (if hardcoded.found then 5 else 0) -
      (if memoryLeaks.potential then 20 else 0)
    { passed := 70 ≤ score, qualityScore := max 0 score, issues := issues }

end PatternValidator

/-!
### TruthScoring

JS numbers are modelled as exact rationals; Math.round rounds half toward
positive infinity.
-/

/-- JS Math.round. -/
def jsRound (x : ℚ) : ℤ := Int.floor (x + 1 / 2)

/-- Math.round(x * 1000) / 1000 as used for reported scores. -/
def roundTo3 (x : ℚ) : ℚ := (jsRound (x * 1000) : ℚ) / 1000

namespace TruthScoring

open PatternValidator

structure TSOptions where
  threshold : ℚ := 0.95
  warningThreshold : ℚ := 0.85
  criticalThreshold : ℚ := 0.75
deriving Repr

/-- `_getScoreStatus`: the excellent tier is hardcoded at 0.95; the lower
tiers use the configured thresholds. -/
def getScoreStatus (opts : TSOptions) (score : ℚ) : String :=
  if 0.95 ≤ score then "excellent"
  else if opts.warningThreshold ≤ score then "good"
  else if opts.criticalThreshold ≤ score then "warning"
  else "critical"

/-- `_calculateSecurityScore` from the source. -/
def calculateSecurityScore (pre : PreResult) : ℚ :=
  if pre.passed && pre.violations.isEmpty then 1
  else
    let criticalCount := (pre.violations.filter fun v => v.severity == "CRITICAL").length
    let highCount := (pre.violations.filter fun v => v.severity == "HIGH").length
    let mediumCount := (pre.violations.filter fun v => v.severity == "MEDIUM").length
    max 0 (1 - criticalCount * 0.3 - highCount * 0.15 - mediumCount * 0.05)

structure ScoreResult where
  overallScore : ℚ
  passed : Bool
  threshold : ℚ
  security : ℚ
  quality : ℚ
  performance : ℚ
  status : String
  violations : List Violation
  issues : List Issue
deriving Repr

/-- `calculateScore`.  The internal validator is constructed with default
options.  The reported overall and component scores are rounded to three
decimals; `passed` and `status` are computed from the unrounded score. -/
def calculateScore (opts : TSOptions) (code : Str) : ScoreResult :=
  let preResult := validatePre {} code
  let postResult := validatePost {} (.obj (some code) none none)
  let securityScore := calculateSecurityScore preResult
  let qualityScore : ℚ := (postResult.qualityScore : ℚ) / 100
  -- The source computes preResult.performanceCompliant ? 1.0 : 0.8, but
  -- validatePre never returns a performanceCompliant field, so the read is
  -- always undefined (falsy) and the branch always yields 0.8.
  let performanceScore : ℚ := 0.8
  let overallScore :=
    securityScore * 0.5 + qualityScore * 0.3 + performanceScore * 0.2
  { overallScore := roundTo3 overallScore,
    passed := opts.threshold ≤ overallScore,
    threshold := opts.threshold,
    security := roundTo3 securityScore,
    quality := roundTo3 qualityScore,
    performance := roundTo3 performanceScore,
    status := getScoreStatus opts overallScore,
    violations := preResult.violations,
    issues := postResult.issues }

end TruthScoring

/-!
### ValidationHooks

The hook registries are modelled as lists in Map insertion order; handlers
are Except-valued functions over abstract parameter / context / result types
(a thrown error is the `Except.error` case).  The per-hook timing metrics and
the latency-budget check are wall-clock based and not modelled.  The
`invoked` field of a run result is instrumentation recording, in order, the
ids of the hooks whose handler was called, and `hookErrors` records the
emitted hookError events.
-/

namespace ValidationHooks

structure HookOptions where
  priority : Option String := none
  enabled : Bool := true
deriving Repr

structure Hook (H : Type) where
  id : String
  handler : H
  priority : String
  enabled : Bool

/-- The comparator rank from `_getSortedHooks`:
`priorityOrder[a.priority] || 2` — CRITICAL maps to 0, which is falsy in JS,
so it falls back to 2, as does any unknown priority. -/
def priorityRank (p : String) : Nat :=
  let v : Option Nat :=
    if p == "CRITICAL" then some 0
    else if p == "HIGH" then some 1
    else if p == "MEDIUM" then some 2
    else if p == "LOW" then some 3
    else none
  match v with
  | some n => if n == 0 then 2 else n
  | none => 2

/-- Stable sort by comparator rank (JS Array.prototype.sort is stable).
`sortHooks` folds from the right, so each hook is inserted into the sorted
list of the hooks registered after it; placing it before the first element
of greater-or-equal rank keeps the original order of equal-rank hooks. -/
def insertByRank (h : Hook H) : List (Hook H) → List (Hook H)
  | [] => [h]
  | x :: xs =>
    if priorityRank h.priority ≤ priorityRank x.priority then h :: x :: xs
    else x :: insertByRank h xs

def sortHooks : List (Hook H) → List (Hook H)
  | [] => []
  | h :: hs => insertByRank h (sortHooks hs)

/-- Stability on a two-hook registry: the hook registered first stays first
whenever its comparator rank does not exceed the second hook's rank — in
particular on rank ties, including the CRITICAL/MEDIUM tie created by the
falsy `priorityOrder[p] || 2` fallback. -/
theorem sortHooks_stable_pair (a b : Hook H)
    (hle : priorityRank a.priority ≤ priorityRank b.priority) :
    sortHooks [a, b] = [a, b] := by
  simp [sortHooks, insertByRank, hle]

/-- Map.set: overwrite in place when the id exists, else append. -/
def setHook (h : Hook H) : List (Hook H) → List (Hook H)
  | [] => [h]
  | x :: xs => if x.id == h.id then h :: xs else x :: setHook h xs

/-- A value passed as a hook handler either is callable or is not. -/
inductive JsCallable (H : Type) where
  | func (f : H)
  | notFunction

/-- `registerPreToolUse`: throws when the handler is not a function,
otherwise registers with priority `options.priority || 'MEDIUM'` and
enabled `options.enabled !== false`. -/
def registerPreToolUse (hooks : List (Hook H)) (id : String) (handler : JsCallable H)
    (opts : HookOptions) : Except String (List (Hook H)) :=
  match handler with
  | .notFunction => .error ("PreToolUse hook '" ++ id ++ "' must be a function")
  | .func f =>
    .ok (setHook
      { id := id, handler := f,
        priority := match opts.priority with
          | some p => if p.isEmpty then "MEDIUM" else p
          | none => "MEDIUM",
        enabled := opts.enabled } hooks)

/-- `registerPostToolUse`: identical except for the error message. -/
def registerPostToolUse (hooks : List (Hook H)) (id : String) (handler : JsCallable H)
    (opts : HookOptions) : Except String (List (Hook H)) :=
  match handler with
  | .notFunction => .error ("PostToolUse hook '" ++ id ++ "' must be a function")
  | .func f =>
    .ok (setHook
      { id := id, handler := f,
        priority := match opts.priority with
          | some p => if p.isEmpty then "MEDIUM" else p
          | none => "MEDIUM",
        enabled := opts.enabled } hooks)

/-- What a pre-hook handler returns (when it returns something truthy). -/
structure PreHookResult where
  allowed : Bool
  reason : Option String := none
  severity : Option String := none
  suggestion : Option String := none
deriving Repr

/-- A pre-hook handler: receives tool name, params and context; may throw. -/
abbrev PreHandler (P C : Type) := String → P → C → Except String (Option PreHookResult)

structure Intervention where
  hookId : String
  reason : Option String
  severity : String
  suggestion : Option String
deriving Repr

structure PreRunResult where
  allowed : Bool
  interventions : List Intervention
  toolName : String
  invoked : List String
  hookErrors : List String
deriving Repr

/-- The pre-hook loop body.  The source's try/catch wraps the whole loop, so
the first handler that throws ends the loop: the hookError event is emitted
and the state accumulated so far is returned unchanged (no veto). -/
def runPreHooks (strictMode : Bool) (toolName : String) (params : P) (ctx : C) :
    List (Hook (PreHandler P C)) → PreRunResult → PreRunResult
  | [], st => st
  | h :: hs, st =>
    if !h.enabled then runPreHooks strictMode toolName params ctx hs st
    else
      match h.handler toolName params ctx with
      | .error e =>
        { st with invoked := st.invoked ++ [h.id], hookErrors := st.hookErrors ++ [e] }
      | .ok res =>
        let st := { st with invoked := st.invoked ++ [h.id] }
        match res with
        | some r =>
          if !r.allowed then
            let st :=
              { st with
                allowed := false
                interventions := st.interventions ++
                  [⟨h.id, r.reason,
                    (match r.severity with
                     | some s => if s.isEmpty then "HIGH" else s
                     | none => "HIGH"),
                    r.suggestion⟩] }
            if strictMode then st
            else runPreHooks strictMode toolName params ctx hs st
          else runPreHooks strictMode toolName params ctx hs st
        | none => runPreHooks strictMode toolName params ctx hs st

/-- `executePreToolUse`: sort the registry, run the loop starting from an
allowed state. -/
def executePreToolUse (strictMode : Bool) (hooks : List (Hook (PreHandler P C)))
    (toolName : String) (params : P) (ctx : C) : PreRunResult :=
  runPreHooks strictMode toolName params ctx (sortHooks hooks)
    { allowed := true, interventions := [], toolName := toolName,
      invoked := [], hookErrors := [] }

/-- What a post-hook handler returns; `valid` is only acted on when it is
strictly false, and `issues` only when a nonempty list. -/
structure PostHookResult (I : Type) where
  valid : Option Bool := none
  issues : Option (List I) := none

/-- A post-hook handler: receives tool name, params, tool result, context. -/
abbrev PostHandler (P R C I : Type) := String → P → R → C → Except String (Option (PostHookResult I))

structure PostRunResult (I : Type) where
  valid : Bool
  issues : List I
  toolName : String
  invoked : List String
  hookErrors : List String

/-- The post-hook loop body; same try/catch structure as the pre loop, and no
strict-mode break. -/
def runPostHooks (toolName : String) (params : P) (result : R) (ctx : C) :
    List (Hook (PostHandler P R C I)) → PostRunResult I → PostRunResult I
  | [], st => st
  | h :: hs, st =>
    if !h.enabled then runPostHooks toolName params result ctx hs st
    else
      match h.handler toolName params result ctx with
      | .error e =>
        { st with invoked := st.invoked ++ [h.id], hookErrors := st.hookErrors ++ [e] }
      | .ok res =>
        let st := { st with invoked := st.invoked ++ [h.id] }
        match res with
        | some r =>
          let st := if r.valid == some false then { st with valid := false } else st
          let st :=
            match r.issues with
            | some l => if l.length > 0 then { st with issues := st.issues ++ l } else st
            | none => st
          runPostHooks toolName params result ctx hs st
        | none => runPostHooks toolName params result ctx hs st

/-- `executePostToolUse`. -/
def executePostToolUse (hooks : List (Hook (PostHandler P R C I)))
    (toolName : String) (params : P) (result : R) (ctx : C) : PostRunResult I :=
  runPostHooks toolName params result ctx (sortHooks hooks)
    { valid := true, issues := [], toolName := toolName, invoked := [], hookErrors := [] }

end ValidationHooks

/-!
### SPARCIntegration

The workflow state is passed explicitly.  Phase outputs are modelled as a
function from field names to JS-like values with their truthiness.  A custom
validator may throw (Except), in which case validatePhase rejects; no state
mutation happens before the validator call, so the state is unchanged in that
case.  The nextSteps guidance strings and emitted events are presentation
only and not modelled.
-/

namespace SPARCIntegration

structure PhaseConfig where
  name : String
  requiredOutputs : List String
  qualityGate : ℚ
deriving Repr

/-- The five phases, in definition order, with their quality gates. -/
def phaseList : List (String × PhaseConfig) :=
  [ ("specification", ⟨"Specification",
      ["requirements", "constraints", "success_criteria"], 0.85⟩),
    ("pseudocode", ⟨"Pseudocode", ["algorithm_design", "data_structures"], 0.85⟩),
    ("architecture", ⟨"Architecture", ["system_design", "interfaces", "schemas"], 0.90⟩),
    ("refinement", ⟨"Refinement (TDD)", ["tests", "implementation", "coverage"], 0.95⟩),
    ("completion", ⟨"Completion", ["integration", "documentation"], 0.90⟩) ]

def phaseLookup (phase : String) : Option PhaseConfig :=
  (phaseList.find? fun pc => pc.1 == phase).map Prod.snd

/-- Property names on which the bracket lookup `this.phases[phase]` resolves
through the prototype chain: `this.phases` is a plain object literal, so for
these names the lookup finds the truthy inherited Object.prototype member (a
function — or Object.prototype itself for __proto__) instead of undefined,
the `!phaseConfig` unknown-phase guard is passed, and the iteration over
`phaseConfig.requiredOutputs` (which is undefined on those values) throws a
TypeError. -/
def protoPhaseKeys : List String :=
  ["constructor", "hasOwnProperty", "isPrototypeOf", "propertyIsEnumerable",
   "toLocaleString", "toString", "valueOf", "__defineGetter__",
   "__defineSetter__", "__lookupGetter__", "__lookupSetter__", "__proto__"]

def phaseNames : List String := phaseList.map Prod.fst

/-- `_getNextPhase`: index in the key order; indexOf of an unknown phase is
-1, which the source then treats as an index before the first phase. -/
def getNextPhase (currentPhase : String) : Option String :=
  let idx : Int :=
    match phaseNames.findIdx? (fun n => n == currentPhase) with
    | some i => (i : Int)
    | none => -1
  if idx < (phaseNames.length : Int) - 1 then phaseNames.get? (idx + 1).toNat else none

/-- A JS value in a phase-outputs object, with its truthiness. -/
inductive OutVal where
  | absent
  | arr (n : Nat)
  | num (q : ℚ)
  | str (s : Str)
  | objTruthy
deriving Repr

abbrev Outputs := String → OutVal

def truthyOut : OutVal → Bool
  | .absent => false
  | .arr _ => true
  | .num q => !(q == 0)
  | .str s => !s.isEmpty
  | .objTruthy => true

/-- Truthiness of `value?.length` as used for outputs.requirements: only
arrays and strings have a length. -/
def truthyLength : OutVal → Bool
  | .arr n => !(n == 0)
  | .str s => !s.isEmpty
  | _ => false

structure PhaseIssue where
  itype : String
  severity : Option String := none
  message : String
deriving DecidableEq, Repr

/-- `_validatePhaseSpecific`: per-phase structural checks and their
deductions.  A numeric coverage below 90 (and nonzero, i.e. truthy) deducts
0.2; the JS coercion of non-numeric coverage values in the comparison is not
modelled (the claims quantify over outputs where coverage is numeric or
absent). -/
def validatePhaseSpecific (phase : String) (outputs : Outputs) :
    List PhaseIssue × ℚ :=
  if phase == "specification" then
    if !(truthyLength (outputs "requirements")) then
      ([⟨"incomplete", none, "No requirements defined"⟩], 0.1)
    else ([], 0)
  else if phase == "architecture" then
    if !(truthyOut (outputs "interfaces")) then
      ([⟨"incomplete", none, "No interface definitions"⟩], 0.15)
    else ([], 0)
  else if phase == "refinement" then
    match outputs "coverage" with
    | .num q =>
      if !(q == 0) && q < 90 then
        ([⟨"coverage", none, "Test coverage below 90% target"⟩], 0.2)
      else ([], 0)
    | _ => ([], 0)
  else ([], 0)

structure ValidatorResult where
  issues : Option (List PhaseIssue) := none

structure SPARCOptions where
  enableValidation : Bool := true
  qualityThreshold : ℚ := 0.9
deriving Repr

/-- The custom-validator step of validatePhase: run the optional validator
when validation is enabled; undefined issues contribute nothing, otherwise
each reported issue deducts 0.1.  A raising validator propagates the raise. -/
def runCustomValidator (opts : SPARCOptions) (outputs : Outputs)
    (validator : Option (Outputs → Except String ValidatorResult)) :
    Except String (List PhaseIssue × ℚ) :=
  match validator, opts.enableValidation with
  | some v, true =>
    match v outputs with
    | .error e => .error e
    | .ok vr =>
      match vr.issues with
      | some l => .ok (l, l.length * 0.1)
      | none => .ok ([], 0)
  | _, _ => .ok ([], 0)

structure Remediation where
  issue : String
  remediation : String
  priority : String
deriving DecidableEq, Repr

/-- `_getRemediationSteps`. -/
def getRemediationSteps (issues : List PhaseIssue) : List Remediation :=
  issues.map fun i =>
    ⟨i.message, "Fix " ++ i.itype ++ " issue before proceeding",
      if i.severity == some "HIGH" then "immediate" else "recommended"⟩

structure PhaseOutcome where
  phase : String
  passed : Bool
  score : ℚ
  qualityGate : ℚ
  issues : List PhaseIssue
  nextPhase : Option (Option String) := none
  remediation : Option (List Remediation) := none
deriving Repr

/-- The return value of validatePhase: either the early structured failure
for an unknown phase, or a phase outcome. -/
inductive PhaseReturn where
  | unknown (error : String)
  | outcome (r : PhaseOutcome)
deriving Repr

structure Workflow where
  id : String
  task : Str
  currentPhase : Option String
  completedPhases : List String
  phaseResults : List (String × PhaseOutcome)
deriving Repr

structure SPARCState where
  currentWorkflow : Option Workflow
deriving Repr

/-- Object-property assignment on the phaseResults map. -/
def setResult (phase : String) (r : PhaseOutcome) :
    List (String × PhaseOutcome) → List (String × PhaseOutcome)
  | [] => [(phase, r)]
  | (k, v) :: rest =>
    if k == phase then (k, r) :: rest else (k, v) :: setResult phase r rest

/-- `startWorkflow`; the timestamp-based id is taken as an argument. -/
def startWorkflow (st : SPARCState) (id : String) (task : Str) : SPARCState :=
  let _ := st
  { currentWorkflow := some
      { id := id, task := task, currentPhase := some "specification",
        completedPhases := [], phaseResults := [] } }

/-- `validatePhase`.  An unknown phase name yields the structured failure
object — except for the Object.prototype property names, where the
prototype-chain lookup passes the guard and the required-outputs iteration
throws a TypeError (before any state access or mutation).  For a known
phase the score starts at 1.0, loses 0.2 per missing required output,
0.1 per custom-validator issue, and the phase-specific deduction with a
floor at 0 applied at that final step; the phase passes iff the score
reaches the quality gate.  On pass with an active workflow whose current
phase is the validated phase, the workflow is advanced; otherwise the state
is unchanged. -/
def validatePhase (opts : SPARCOptions) (st : SPARCState) (phase : String)
    (outputs : Outputs)
    (validator : Option (Outputs → Except String ValidatorResult)) :
    Except String (PhaseReturn × SPARCState) :=
  match phaseLookup phase with
  | none =>
    if protoPhaseKeys.contains phase then
      .error ("TypeError: phaseConfig.requiredOutputs is not iterable")
    else
      .ok (.unknown ("Unknown phase: " ++ phase), st)
  | some cfg =>
    let missing := cfg.requiredOutputs.filter fun r => !(truthyOut (outputs r))
    let issues0 := missing.map fun r =>
      (⟨"missing_output", some "HIGH", "Missing required output: " ++ r⟩ : PhaseIssue)
    let score0 : ℚ := 1 - missing.length * 0.2
    match runCustomValidator opts outputs validator with
    | .error e => .error e
    | .ok (customIssues, customDeduction) =>
      let (specIssues, specDeduction) := validatePhaseSpecific phase outputs
      let issues := issues0 ++ customIssues ++ specIssues
      let score : ℚ := max 0 (score0 - customDeduction - specDeduction)
      let passed := cfg.qualityGate ≤ score
      if passed then
        let next := getNextPhase phase
        let result : PhaseOutcome :=
          { phase := phase, passed := passed, score := roundTo3 score,
            qualityGate := cfg.qualityGate, issues := issues,
            nextPhase := some next }
        let st' : SPARCState :=
          match st.currentWorkflow with
          | some w =>
            if w.currentPhase == some phase then
              { currentWorkflow := some
                  { w with
                    completedPhases := w.completedPhases ++ [phase]
                    phaseResults := setResult phase result w.phaseResults
                    currentPhase := next } }
            else st
          | none => st
        .ok (.outcome result, st')
      else
        let result : PhaseOutcome :=
          { phase := phase, passed := passed, score := roundTo3 score,
            qualityGate := cfg.qualityGate, issues := issues,
            remediation := some (getRemediationSteps issues) }
        .ok (.outcome result, st)

end SPARCIntegration

/-!
### ClaudeFlowAdapter.orchestrate

The external executor is a caller-indexed Except-valued function (an external
process may answer or raise differently on each call); the pre/post
validation callbacks are pure functions.  The adapter-level metrics counters
and the timing strings are not modelled.  `execCalls`, `preCalls` and
`postCalls` are instrumentation counting the invocations of the executor and
of the two callbacks during one orchestrate call.
-/

namespace ClaudeFlowAdapter

structure PreCbViolation where
  message : String
deriving Repr

/-- What a caller-supplied preValidation returns; `violations` is optional
(the source reads it with optional chaining). -/
structure PreCbResult where
  passed : Bool
  violations : Option (List PreCbViolation) := none
deriving Repr

structure CbIssue where
  message : String
  suggestion : Option String := none
deriving DecidableEq, Repr

structure PostCbResult where
  passed : Bool
  issues : List CbIssue := []
deriving Repr

structure Callbacks (R : Type) where
  preValidation : Option (Str → PreCbResult) := none
  postValidation : Option (R → PostCbResult) := none
  exec : Nat → Str → Except String R

structure OrchOptions where
  maxRetries : Option Nat := none
deriving Repr

/-- `options.maxRetries || 3`: an absent value or the (falsy) number 0 both
fall back to the default 3. -/
def resolveMaxRetries : Option Nat → Nat
  | none => 3
  | some n => if n == 0 then 3 else n

def feedbackMarker : Str := strOf "[QUALITY FEEDBACK - PLEASE FIX]:"

/-- `i.suggestion || 'Fix this'` (an empty suggestion string is falsy). -/
def suggestionText : Option String → String
  | some t => if t.isEmpty then "Fix this" else t
  | none => "Fix this"

def issueLine (i : CbIssue) : Str :=
  strOf "- " ++ i.message.data ++ strOf " (" ++ (suggestionText i.suggestion).data ++ strOf ")"

def issuesText (issues : List CbIssue) : Str :=
  (issues.map issueLine).intersperse (strOf "\n") |>.flatten

def feedbackBlock (issues : List CbIssue) : Str :=
  strOf "\n\n[QUALITY FEEDBACK - PLEASE FIX]:\nThe previous attempt had the following issues:\n" ++
    issuesText issues ++
    strOf "\n\nPlease correct these issues in the next attempt."

/-- String.prototype.includes for the feedback marker. -/
def hasMarker : Str → Bool
  | [] => false
  | c :: cs => List.isPrefixOf feedbackMarker (c :: cs) || hasMarker cs

/-- The prefix of the task before the first occurrence of the feedback
marker (String.prototype.split at the marker, first piece). -/
def beforeMarker : Str → Str
  | [] => []
  | c :: cs =>
    if List.isPrefixOf feedbackMarker (c :: cs) then []
    else c :: beforeMarker cs

/-- Task-text update between attempts: replace a previously appended feedback
block, or append one. -/
def updateTask (task : Str) (issues : List CbIssue) : Str :=
  if hasMarker task then
    beforeMarker task ++ feedbackBlock issues
  else task ++ feedbackBlock issues

/-- The value orchestrate resolves with.  The blocked and errored early
returns carry no attempts and no finalStatus field; the loop exit spreads the
last executor result (with qualityIssues attached when the last
post-validation failed) and adds attempts, maxRetries and finalStatus. -/
inductive Outcome (R : Type) where
  | blocked (reason : String)
  | errored (error : String)
  | finished (lastResult : Option (R × Option (List CbIssue)))
      (attempts : Nat) (maxRetries : Nat) (finalStatus : String)

def Outcome.finalStatus? : Outcome R → Option String
  | .finished _ _ _ s => some s
  | _ => none

def Outcome.attempts? : Outcome R → Option Nat
  | .finished _ a _ _ => some a
  | _ => none

def Outcome.isBlocked : Outcome R → Bool
  | .blocked _ => true
  | _ => false

/-- The while loop of orchestrate, entered with `attempts` attempts already
made; returns the outcome together with the number of executor calls and of
postValidation calls made from this point on.  The top-level else branch is
the loop-condition exit, reachable only after a failed post-validation with
no retries left has updated the task; orchestrate enters the loop at
attempts = 0, so the initial condition always holds. -/
def orchLoop (maxRetries : Nat) (cb : Callbacks R) (task : Str) (attempts : Nat)
    (lastResult : Option (R × Option (List CbIssue))) :
    Outcome R × Nat × Nat :=
  if attempts ≤ maxRetries then
    match cb.exec (attempts + 1) task with
    | .error e => (.errored e, 1, 0)
    | .ok result =>
      match cb.postValidation with
      | none => (.finished (some (result, none)) (attempts + 1) maxRetries "success", 1, 0)
      | some pv =>
        let pr := pv result
        if !pr.passed then
          if attempts + 1 ≤ maxRetries then
            let r2 := orchLoop maxRetries cb (updateTask task pr.issues) (attempts + 1)
              (some (result, some pr.issues))
            (r2.1, r2.2.1 + 1, r2.2.2 + 1)
          else
            (.finished (some (result, some pr.issues)) (attempts + 1) maxRetries
              "max_retries_exceeded", 1, 1)
        else
          (.finished (some (result, none)) (attempts + 1) maxRetries "success", 1, 1)
  else
    (.finished lastResult attempts maxRetries "max_retries_exceeded", 0, 0)
termination_by maxRetries + 1 - attempts
decreasing_by omega

structure OrchStats where
  execCalls : Nat
  preCalls : Nat
  postCalls : Nat
deriving DecidableEq, Repr

/-- `orchestrate`: resolve the retry budget, run the optional pre-validation
exactly once (a failing pre-validation blocks immediately, before any
executor call), then enter the retry loop at zero attempts. -/
def orchestrate (opts : OrchOptions) (cb : Callbacks R) (task : Str) :
    Outcome R × OrchStats :=
  let maxRetries := resolveMaxRetries opts.maxRetries
  match cb.preValidation with
  | some pre =>
    let preResult := pre task
    if !preResult.passed then
      (.blocked
        (match preResult.violations with
         | some (v :: _) =>
           if v.message.isEmpty then "Pre-validation failed" else v.message
         | _ => "Pre-validation failed"),
       ⟨0, 1, 0⟩)
    else
      let r := orchLoop maxRetries cb task 0 none
      (r.1, ⟨r.2.1, 1, r.2.2⟩)
  | none =>
    let r := orchLoop maxRetries cb task 0 none
    (r.1, ⟨r.2.1, 0, r.2.2⟩)

end ClaudeFlowAdapter

/-!
## Helper lemmas
-/

theorem jsRound_intCast (n : ℤ) : jsRound (n : ℚ) = n := by
  unfold jsRound
  rw [Int.floor_eq_iff]
  constructor
  · linarith
  · linarith

/-- Scores that are integer multiples of 1/20 are reported unchanged by the
three-decimal rounding. -/
theorem roundTo3_twentieths (n : ℤ) : roundTo3 ((n : ℚ) / 20) = (n : ℚ) / 20 := by
  unfold roundTo3
  have h : ((n : ℚ) / 20) * 1000 = ((50 * n : ℤ) : ℚ) := by push_cast; ring
  rw [h, jsRound_intCast]
  push_cast
  ring

/-- Scores that are integer multiples of 1/1000 are reported unchanged by the
three-decimal rounding. -/
theorem roundTo3_thousandths (n : ℤ) : roundTo3 ((n : ℚ) / 1000) = (n : ℚ) / 1000 := by
  unfold roundTo3
  have h : ((n : ℚ) / 1000) * 1000 = ((n : ℤ) : ℚ) := by ring
  rw [h, jsRound_intCast]

namespace ClaudeFlowAdapter

/-- Executor callback that always raises. -/
def raisingExec : Callbacks Nat :=
  { exec := fun _ _ => .error "executor unavailable"
    postValidation := some fun _ => { passed := true } }

/-- Callbacks whose post-validation always fails and whose executor always
answers. -/
def alwaysFailPost : Callbacks Nat :=
  { exec := fun a _ => .ok a
    postValidation := some fun _ => { passed := false, issues := [] } }

/-- Callbacks whose pre-validation fails. -/
def failingPre : Callbacks Nat :=
  { exec := fun a _ => .ok a
    preValidation := some fun _ => { passed := false, violations := some [⟨"blocked by policy"⟩] } }

end ClaudeFlowAdapter

namespace ClaudeFlowAdapter

/-- When every post-validation fails and the executor always answers, the
retry loop runs to exhaustion: entered with a attempts already made, it
performs the remaining N - a + 1 executor calls and reports attempts = N + 1
with finalStatus max_retries_exceeded. -/
theorem orchLoop_allFail (R : Type) (cb : Callbacks R) (pv : R → PostCbResult) (N : Nat)
    (hpv : cb.postValidation = some pv)
    (hfail : ∀ r, (pv r).passed = false)
    (hexec : ∀ a t, ∃ r, cb.exec a t = .ok r) :
    ∀ (k a : Nat) (task : Str) (last : Option (R × Option (List CbIssue))),
      N - a = k → a ≤ N →
      ∃ p, orchLoop N cb task a last =
        (.finished (some p) (N + 1) N "max_retries_exceeded", k + 1, k + 1) := by
  intro k
  induction k with
  | zero =>
    intro a task last hk ha
    have haN : a = N := by omega
    have hnot : ¬ (a + 1 ≤ N) := by omega
    obtain ⟨r, hr⟩ := hexec (a + 1) task
    rw [orchLoop]
    rw [if_pos ha, hr]
    rw [hpv]
    simp only [hfail r, Bool.not_false, if_true, if_neg hnot]
    exact ⟨(r, some (pv r).issues), by rw [haN]⟩
  | succ k ih =>
    intro a task last hk ha
    have hlt : a + 1 ≤ N := by omega
    obtain ⟨r, hr⟩ := hexec (a + 1) task
    obtain ⟨p, hp⟩ := ih (a + 1) (updateTask task (pv r).issues) (some (r, some (pv r).issues))
      (by omega) hlt
    rw [orchLoop]
    rw [if_pos ha, hr]
    rw [hpv]
    simp only [hfail r, Bool.not_false, if_true, if_pos hlt]
    rw [hp]
    exact ⟨p, by simp⟩

theorem resolveMaxRetries_pos (N : Nat) (hN : 1 ≤ N) : resolveMaxRetries (some N) = N := by
  simp [resolveMaxRetries]
  omega

/-- Executor callback that answers the first attempt (whose result then fails
post-validation) and raises on the retry attempt. -/
def raiseSecond : Callbacks Nat :=
  { exec := fun a _ => if a == 1 then .ok 7 else .error "gone on retry"
    postValidation := some fun _ => { passed := false, issues := [] } }

/-- If the first k − 1 attempts each produce a result that fails
post-validation and the executor raises on attempt k, the retry loop —
entered with a attempts already made, a < k ≤ N + 1 — stops at that raise:
it returns the errored outcome after k − a further executor calls and
k − a − 1 further post-validation calls, with no retry consumed by the
raise. -/
theorem orchLoop_raise (R : Type) (cb : Callbacks R) (N : Nat) (e : String) (k : Nat)
    (hearlier : ∀ j, 0 < j → j < k → ∀ t, ∃ r pv, cb.exec j t = .ok r ∧
        cb.postValidation = some pv ∧ (pv r).passed = false)
    (hraise : ∀ t, cb.exec k t = .error e)
    (hkN : k ≤ N + 1) :
    ∀ (d a : Nat) (task : Str) (last : Option (R × Option (List CbIssue))),
      k - 1 - a = d → a < k →
      orchLoop N cb task a last = (.errored e, k - a, k - a - 1) := by
  intro d
  induction d with
  | zero =>
    intro a task last hd ha
    have haN : a ≤ N := by omega
    have hak1 : a + 1 = k := by omega
    rw [orchLoop, if_pos haN, hak1, hraise task]
    have h1 : k - a = 1 := by omega
    have h0 : k - a - 1 = 0 := by omega
    simp [h1, h0]
  | succ d ih =>
    intro a task last hd ha
    have haN : a ≤ N := by omega
    have ha1k : a + 1 < k := by omega
    have ha1N : a + 1 ≤ N := by omega
    obtain ⟨r, pv, hr, hpv, hfail⟩ := hearlier (a + 1) (by omega) ha1k task
    have hih := ih (a + 1) (updateTask task (pv r).issues) (some (r, some (pv r).issues))
      (by omega) ha1k
    rw [orchLoop]
    rw [if_pos haN, hr]
    rw [hpv]
    simp only [hfail, Bool.not_false, if_true, if_pos ha1N]
    rw [hih]
    have h1 : k - (a + 1) + 1 = k - a := by omega
    have h2 : k - (a + 1) - 1 + 1 = k - a - 1 := by omega
    simp [h1, h2]

end ClaudeFlowAdapter

namespace ValidationHooks

/-- If every enabled hook before the raising one returns normally, running
the pre pipeline over xs ++ bad :: ys equals running it over xs alone plus
the hookError record of bad: bad causes no veto, and the hooks in ys are
never invoked (the source's try/catch wraps the whole loop). -/
theorem runPreHooks_raise (P C : Type) (t : String) (p : P) (c : C)
    (xs ys : List (Hook (PreHandler P C))) (bad : Hook (PreHandler P C)) (e : String)
    (hxs : ∀ h ∈ xs, h.enabled = true → ∃ v, h.handler t p c = .ok v)
    (hbaden : bad.enabled = true)
    (hbad : bad.handler t p c = .error e) :
    ∀ st, runPreHooks false t p c (xs ++ bad :: ys) st =
      (let s := runPreHooks false t p c xs st
       { s with invoked := s.invoked ++ [bad.id], hookErrors := s.hookErrors ++ [e] }) := by
  induction xs with
  | nil =>
    intro st
    simp only [List.nil_append, runPreHooks, hbaden, Bool.not_true, hbad]
    simp
  | cons x xs ih =>
    intro st
    have hxs' : ∀ h ∈ xs, h.enabled = true → ∃ v, h.handler t p c = .ok v :=
      fun h hm he => hxs h (List.mem_cons_of_mem x hm) he
    by_cases hen : x.enabled = true
    · obtain ⟨v, hv⟩ := hxs x (List.mem_cons_self x xs) hen
      cases v with
      | none =>
        simp only [List.cons_append, runPreHooks, hen, Bool.not_true, hv]
        simp only [Bool.false_eq_true, if_false]
        exact ih hxs' _
      | some r =>
        by_cases hall : r.allowed = true
        · simp only [List.cons_append, runPreHooks, hen, Bool.not_true, hv, hall]
          simp only [Bool.not_true, Bool.false_eq_true, if_false]
          exact ih hxs' _
        · have hall' : r.allowed = false := by revert hall; cases r.allowed <;> simp
          simp only [List.cons_append, runPreHooks, hen, Bool.not_true, hv, hall']
          simp only [Bool.not_false, if_true, Bool.false_eq_true, if_false]
          exact ih hxs' _
    · have hen' : x.enabled = false := by revert hen; cases x.enabled <;> simp
      simp only [List.cons_append, runPreHooks, hen', Bool.not_false, if_true]
      exact ih hxs' _

/-- The post-pipeline analogue of runPreHooks_raise. -/
theorem runPostHooks_raise (P R C I : Type) (t : String) (p : P) (res : R) (c : C)
    (xs ys : List (Hook (PostHandler P R C I))) (bad : Hook (PostHandler P R C I)) (e : String)
    (hxs : ∀ h ∈ xs, h.enabled = true → ∃ v, h.handler t p res c = .ok v)
    (hbaden : bad.enabled = true)
    (hbad : bad.handler t p res c = .error e) :
    ∀ st, runPostHooks t p res c (xs ++ bad :: ys) st =
      (let s := runPostHooks t p res c xs st
       { s with invoked := s.invoked ++ [bad.id], hookErrors := s.hookErrors ++ [e] }) := by
  induction xs with
  | nil =>
    intro st
    simp only [List.nil_append, runPostHooks, hbaden, Bool.not_true, hbad]
    simp
  | cons x xs ih =>
    intro st
    have hxs' : ∀ h ∈ xs, h.enabled = true → ∃ v, h.handler t p res c = .ok v :=
      fun h hm he => hxs h (List.mem_cons_of_mem x hm) he
    by_cases hen : x.enabled = true
    · obtain ⟨v, hv⟩ := hxs x (List.mem_cons_self x xs) hen
      cases v with
      | none =>
        simp only [List.cons_append, runPostHooks, hen, Bool.not_true, hv]
        simp only [Bool.false_eq_true, if_false]
        exact ih hxs' _
      | some r =>
        simp only [List.cons_append, runPostHooks, hen, Bool.not_true, hv]
        simp only [Bool.false_eq_true, if_false]
        exact ih hxs' _
    · have hen' : x.enabled = false := by revert hen; cases x.enabled <;> simp
      simp only [List.cons_append, runPostHooks, hen', Bool.not_false, if_true]
      exact ih hxs' _

/-- A pre-hook whose handler throws. -/
def badPreHook : Hook (PreHandler Unit Unit) :=
  ⟨"boom-pre", fun _ _ _ => .error "pre boom", "HIGH", true⟩

/-- An enabled, well-behaved pre-hook. -/
def tamePreHook : Hook (PreHandler Unit Unit) :=
  ⟨"tame-pre", fun _ _ _ => .ok (some ⟨true, none, none, none⟩), "MEDIUM", true⟩

/-- A post-hook whose handler throws. -/
def badPostHook : Hook (PostHandler Unit Unit Unit String) :=
  ⟨"boom-post", fun _ _ _ _ => .error "post boom", "HIGH", true⟩

/-- An enabled, well-behaved post-hook. -/
def tamePostHook : Hook (PostHandler Unit Unit Unit String) :=
  ⟨"tame-post", fun _ _ _ _ => .ok (some { valid := some true, issues := some [] }), "MEDIUM", true⟩

end ValidationHooks

namespace SPARCIntegration

theorem max0_intdiv20 (n : ℤ) : (0 : ℚ) ⊔ ((n : ℚ) / 20) = (((0 ⊔ n : ℤ) : ℚ)) / 20 := by
  rcases le_total 0 n with h | h
  · rw [max_eq_right, max_eq_right h]
    exact div_nonneg (by exact_mod_cast h) (by norm_num)
  · rw [max_eq_left, max_eq_left h]
    · norm_num
    · apply div_nonpos_of_nonpos_of_nonneg
      · exact_mod_cast h
      · norm_num

/-- The phase-specific deduction is one of the four source constants. -/
theorem validatePhaseSpecific_shape (phase : String) (outputs : Outputs) :
    (validatePhaseSpecific phase outputs).2 = 0 ∨
    (validatePhaseSpecific phase outputs).2 = 0.1 ∨
    (validatePhaseSpecific phase outputs).2 = 0.15 ∨
    (validatePhaseSpecific phase outputs).2 = 0.2 := by
  unfold validatePhaseSpecific
  split
  · split
    · right; left; rfl
    · left; rfl
  · split
    · split
      · right; right; left; rfl
      · left; rfl
    · split
      · split
        · split
          · right; right; right; rfl
          · left; rfl
        · left; rfl
      · left; rfl

/-- Phase scores are integer multiples of 1/20, so the three-decimal rounding
reports them unchanged. -/
theorem roundTo3_phase_score (mc cc : ℕ) (sd : ℚ)
    (hsd : sd = 0 ∨ sd = 0.1 ∨ sd = 0.15 ∨ sd = 0.2) :
    roundTo3 (0 ⊔ (1 - (mc : ℚ) * 0.2 - (cc : ℚ) * 0.1 - sd)) =
      0 ⊔ (1 - (mc : ℚ) * 0.2 - (cc : ℚ) * 0.1 - sd) := by
  have key : ∀ dd : ℤ, sd = (dd : ℚ) / 20 →
      roundTo3 (0 ⊔ (1 - (mc : ℚ) * 0.2 - (cc : ℚ) * 0.1 - sd)) =
        0 ⊔ (1 - (mc : ℚ) * 0.2 - (cc : ℚ) * 0.1 - sd) := by
    intro dd hdd
    have hx : 1 - (mc : ℚ) * 0.2 - (cc : ℚ) * 0.1 - sd =
        ((20 - 4 * (mc : ℤ) - 2 * (cc : ℤ) - dd : ℤ) : ℚ) / 20 := by
      rw [hdd]
      push_cast
      ring
    rw [hx, max0_intdiv20, roundTo3_twentieths]
  rcases hsd with h | h | h | h
  · exact key 0 (by rw [h]; norm_num)
  · exact key 2 (by rw [h]; norm_num)
  · exact key 3 (by rw [h]; norm_num)
  · exact key 4 (by rw [h]; norm_num)

/-- The custom-validator deduction is 0.1 per reported issue. -/
theorem runCustomValidator_shape (opts : SPARCOptions) (outputs : Outputs)
    (vld : Option (Outputs → Except String ValidatorResult))
    (ci : List PhaseIssue) (cd : ℚ)
    (h : runCustomValidator opts outputs vld = .ok (ci, cd)) :
    ∃ cc : ℕ, cd = (cc : ℚ) * 0.1 := by
  unfold runCustomValidator at h
  split at h
  · split at h
    · simp at h
    · split at h
      · simp at h
        exact ⟨_, h.2.symm⟩
      · simp at h
        exact ⟨0, by rw [← h.2]; norm_num⟩
  · simp at h
    exact ⟨0, by rw [← h.2]; norm_num⟩

/-- Without a custom validator, validatePhase on a known phase always returns
normally with an outcome. -/
theorem validatePhase_some_ok (opts : SPARCOptions) (st : SPARCState) (phase : String)
    (outputs : Outputs) (cfg : PhaseConfig)
    (hcfg : phaseLookup phase = some cfg) :
    ∃ r st', validatePhase opts st phase outputs none = .ok (.outcome r, st') := by
  unfold validatePhase
  rw [hcfg]
  simp only [runCustomValidator]
  split
  · exact ⟨_, _, rfl⟩
  · exact ⟨_, _, rfl⟩

/-- The workflow created by startWorkflow, sitting at the first phase. -/
def wfSpecWorkflow : Workflow :=
  ⟨"sparc_1", strOf "build a module", some "specification", [], []⟩

/-- A state whose workflow sits at the first phase. -/
def wfSpec : SPARCState := startWorkflow ⟨none⟩ "sparc_1" (strOf "build a module")

/-- Outputs where every field is a nonempty array (all truthy, with a truthy
length). -/
def specOutputs : Outputs := fun _ => .arr 2

end SPARCIntegration

namespace PatternValidator

theorem isQuote_cases (c : Char) (h : isQuote c = true) : c = '"' ∨ c = '\'' := by
  unfold isQuote at h
  rcases Bool.or_eq_true_iff.mp h with h1 | h1
  · exact Or.inl (by exact_mod_cast beq_iff_eq.mp h1)
  · exact Or.inr (by exact_mod_cast beq_iff_eq.mp h1)

theorem quote_toLower (c : Char) (h : isQuote c = true) : c.toLower = c := by
  rcases isQuote_cases c h with rfl | rfl <;> decide

theorem isJsSpace_not_quote (c : Char) (h : isJsSpace c = true) : isQuote c = false := by
  by_contra hq
  have hq' : isQuote c = true := by revert hq; cases isQuote c <;> simp
  rcases isQuote_cases c hq' with rfl | rfl <;> exact absurd h (by decide)

theorem matchKeyCI_take (k : Str) : ∀ cs : Str, matchKeyCI k cs = true →
    ∀ c ∈ cs.take k.length, c.toLower ∈ k := by
  induction k with
  | nil => intro cs _ c hc; simp at hc
  | cons kc ks ih =>
    intro cs h c hc
    rcases cs with _ | ⟨c0, cs'⟩
    · simp [matchKeyCI] at h
    · unfold matchKeyCI at h
      rcases Bool.and_eq_true_iff.mp h with ⟨h1, h2⟩
      simp only [List.length_cons, List.take_succ_cons, List.mem_cons] at hc
      rcases hc with rfl | hc
      · exact List.mem_cons.mpr (Or.inl (beq_iff_eq.mp h1).symm)
      · exact List.mem_cons.mpr (Or.inr (ih cs' h2 c hc))

theorem secretPatterns_keywords_ok :
    ∀ p ∈ secretPatterns, (∀ k ∈ p.keywords, ∀ kc ∈ k, isQuote kc = false) ∧ 4 ≤ p.minLen := by
  decide

theorem matchKeyCI_no_quote (k cs : Str) (hk : ∀ kc ∈ k, isQuote kc = false)
    (h : matchKeyCI k cs = true) : ∀ c ∈ cs.take k.length, isQuote c = false := by
  intro c hc
  by_contra hq
  have hq' : isQuote c = true := by revert hq; cases isQuote c <;> simp
  have hmem : c.toLower ∈ k := matchKeyCI_take k cs h c hc
  rw [quote_toLower c hq'] at hmem
  rw [hk c hmem] at hq'
  exact Bool.false_ne_true hq'

theorem firstKeyword_spec (kws : List Str) (cs : Str) (n : Nat)
    (h : firstKeyword kws cs = some n) :
    ∃ k ∈ kws, matchKeyCI k cs = true ∧ n = k.length := by
  induction kws with
  | nil => simp [firstKeyword] at h
  | cons k ks ih =>
    unfold firstKeyword at h
    split at h
    · rename_i hm
      exact ⟨k, List.mem_cons_self k ks, hm, (Option.some_inj.mp h).symm⟩
    · obtain ⟨k', hk', hm', hn'⟩ := ih h
      exact ⟨k', List.mem_cons_of_mem k hk', hm', hn'⟩

theorem dropWhile_head_false (p : Char → Bool) (l : Str) (b : Char) (bs : Str)
    (h : l.dropWhile p = b :: bs) : p b = false := by
  induction l with
  | nil => simp at h
  | cons x xs ih =>
    rw [List.dropWhile_cons] at h
    split at h
    · exact ih h
    · rename_i hx
      injection h with h1 _
      subst h1
      simpa using hx

/-- The shape invariant of a structured secret match: only the two quote
positions hold quote characters, and the captured value is at least the
pattern's minimum length (which is at least 4 for every secret pattern). -/
def GoodMatch (p : SecretPattern) (m : SecretMatch) : Prop :=
  (∀ c ∈ m.key, isQuote c = false) ∧ (∀ c ∈ m.ws1, isQuote c = false) ∧
  isQuote m.sep = false ∧ (∀ c ∈ m.ws2, isQuote c = false) ∧
  isQuote m.q1 = true ∧ (∀ c ∈ m.value, isQuote c = false) ∧
  isQuote m.q2 = true ∧ p.minLen ≤ m.value.length

theorem tryMatchAt_inv (p : SecretPattern) (cs : Str) (m : SecretMatch) (rest : Str)
    (hkw : ∀ k ∈ p.keywords, ∀ kc ∈ k, isQuote kc = false)
    (h : tryMatchAt p cs = some (m, rest)) : GoodMatch p m := by
  unfold tryMatchAt at h
  split at h
  · simp at h
  · rename_i n hfk
    obtain ⟨k, hkmem, hmci, hn⟩ := firstKeyword_spec p.keywords cs n hfk
    simp only [] at h
    split at h
    · simp at h
    · rename_i sep rest3 hdrop1
      split at h
      · rename_i hsep
        split at h
        · simp at h
        · rename_i q1 rest5 hdrop2
          split at h
          · rename_i hq1
            split at h
            · simp at h
            · rename_i q2 rest7 hdrop3
              split at h
              · rename_i hlen
                simp only [Option.some_inj, Prod.mk.injEq] at h
                obtain ⟨hm, _⟩ := h
                subst hm
                refine ⟨?_, ?_, ?_, ?_, hq1, ?_, ?_, hlen⟩
                · rw [hn]
                  exact matchKeyCI_no_quote k cs (hkw k hkmem) hmci
                · intro c hc
                  exact isJsSpace_not_quote c (List.mem_takeWhile_imp hc)
                · rcases Bool.or_eq_true_iff.mp hsep with h1 | h1
                  · rw [(beq_iff_eq.mp h1 : sep = '=')]
                    rfl
                  · rw [(beq_iff_eq.mp h1 : sep = ':')]
                    rfl
                · intro c hc
                  exact isJsSpace_not_quote c (List.mem_takeWhile_imp hc)
                · intro c hc
                  have := List.mem_takeWhile_imp hc
                  simpa using this
                · have := dropWhile_head_false _ _ _ _ hdrop3
                  simpa using this
              · simp at h
          · simp at h
      · simp at h

theorem scanSecretsAux_inv (p : SecretPattern)
    (hkw : ∀ k ∈ p.keywords, ∀ kc ∈ k, isQuote kc = false) :
    ∀ (fuel : Nat) (cs : Str), ∀ m ∈ scanSecretsAux p fuel cs, GoodMatch p m := by
  intro fuel
  induction fuel with
  | zero => intro cs m hm; simp [scanSecretsAux] at hm
  | succ fuel ih =>
    intro cs m hm
    rcases cs with _ | ⟨c, cs'⟩
    · simp [scanSecretsAux] at hm
    · unfold scanSecretsAux at hm
      split at hm
      · rename_i m' rest htry
        rcases List.mem_cons.mp hm with rfl | hm'
        · exact tryMatchAt_inv p (c :: cs') m rest hkw htry
        · exact ih rest m hm'
      · exact ih cs' m hm

theorem scanSecrets_inv (p : SecretPattern) (hp : p ∈ secretPatterns) (cs : Str) :
    ∀ m ∈ scanSecrets p cs, GoodMatch p m ∧ 4 ≤ m.value.length := by
  intro m hm
  have hkw := (secretPatterns_keywords_ok p hp).1
  have hmin := (secretPatterns_keywords_ok p hp).2
  have hg := scanSecretsAux_inv p hkw cs.length cs m hm
  exact ⟨hg, le_trans hmin hg.2.2.2.2.2.2.2⟩

theorem takeWhile_append_all (p : Char → Bool) (l : Str) (q : Char) (rest : Str)
    (hl : ∀ c ∈ l, p c = true) (hq : p q = false) :
    (l ++ q :: rest).takeWhile p = l := by
  induction l with
  | nil => simp [List.takeWhile_cons, hq]
  | cons x xs ih =>
    rw [List.cons_append, List.takeWhile_cons, hl x (List.mem_cons_self x xs)]
    rw [ih fun c hc => hl c (List.mem_cons_of_mem x hc)]
    simp

theorem dropWhile_append_all (p : Char → Bool) (l : Str) (q : Char) (rest : Str)
    (hl : ∀ c ∈ l, p c = true) (hq : p q = false) :
    (l ++ q :: rest).dropWhile p = q :: rest := by
  induction l with
  | nil => simp [List.dropWhile_cons, hq]
  | cons x xs ih =>
    rw [List.cons_append, List.dropWhile_cons, hl x (List.mem_cons_self x xs)]
    simp only [if_true]
    exact ih fun c hc => hl c (List.mem_cons_of_mem x hc)

theorem findQuotedRun_skip (pre : Str) (hpre : ∀ c ∈ pre, isQuote c = false) (s : Str) :
    findQuotedRun (pre ++ s) =
      (findQuotedRun s).map fun x => (pre ++ x.1, x.2.1, x.2.2.1, x.2.2.2.1, x.2.2.2.2) := by
  induction pre with
  | nil =>
    simp only [List.nil_append]
    rcases h : findQuotedRun s with _ | ⟨a, q1, v, q2, post⟩ <;> simp
  | cons c pre ih =>
    rw [List.cons_append]
    conv_lhs => rw [findQuotedRun]
    rw [hpre c (List.mem_cons_self c pre)]
    simp only [Bool.false_eq_true, if_false]
    rw [ih fun x hx => hpre x (List.mem_cons_of_mem c hx)]
    rcases h : findQuotedRun s with _ | ⟨a, q1, v, q2, post⟩ <;> simp

theorem findQuotedRun_at (q1 : Char) (hq1 : isQuote q1 = true) (v : Str)
    (hv : ∀ c ∈ v, isQuote c = false) (q2 : Char) (hq2 : isQuote q2 = true)
    (post : Str) (hlen : 4 ≤ v.length) :
    findQuotedRun (q1 :: (v ++ q2 :: post)) = some ([], q1, v, q2, post) := by
  unfold findQuotedRun
  rw [hq1]
  simp only [if_true]
  have ht : (v ++ q2 :: post).takeWhile (fun x => !(isQuote x)) = v :=
    takeWhile_append_all _ v q2 post (fun c hc => by rw [hv c hc]; rfl) (by rw [hq2]; rfl)
  have hd : (v ++ q2 :: post).dropWhile (fun x => !(isQuote x)) = q2 :: post :=
    dropWhile_append_all _ v q2 post (fun c hc => by rw [hv c hc]; rfl) (by rw [hq2]; rfl)
  rw [ht, hd]
  simp [hlen]

theorem maskSecret_flat (p : SecretPattern) (m : SecretMatch) (g : GoodMatch p m)
    (h4 : 4 ≤ m.value.length) :
    maskSecret m.flat =
      if m.value.length ≤ 4 then m.flat
      else (m.key ++ m.ws1 ++ [m.sep] ++ m.ws2) ++ maskedValue m.value := by
  obtain ⟨hkey, hws1, hsep, hws2, hq1, hval, hq2, hmin⟩ := g
  have hpre : ∀ c ∈ m.key ++ m.ws1 ++ [m.sep] ++ m.ws2, isQuote c = false := by
    intro c hc
    simp only [List.append_assoc, List.mem_append, List.mem_singleton, List.mem_cons,
      List.not_mem_nil, or_false] at hc
    rcases hc with hc | hc | rfl | hc
    · exact hkey c hc
    · exact hws1 c hc
    · exact hsep
    · exact hws2 c hc
  have hflat : m.flat = (m.key ++ m.ws1 ++ [m.sep] ++ m.ws2) ++
      (m.q1 :: (m.value ++ m.q2 :: [])) := by
    unfold SecretMatch.flat
    simp [List.append_assoc]
  rw [hflat]
  unfold maskSecret
  rw [findQuotedRun_skip _ hpre _,
    findQuotedRun_at m.q1 hq1 m.value hval m.q2 hq2 [] h4]
  by_cases hv4 : m.value.length ≤ 4
  · simp [hv4]
  · simp [hv4]

/-- The violation that checkSecrets emits for one matching secret pattern. -/
def secretViolation (p : SecretPattern) (code : Str) : Violation :=
  { vtype := "hardcoded_secret", pat := some p.name, severity := "CRITICAL",
    message := "Hardcoded " ++ p.name ++ " detected",
    hits := some ((scanSecrets p code).map fun m => maskSecret m.flat),
    suggestion := "Use environment variables: process.env.SECRET_NAME" }

theorem checkSecrets_mem (code : Str) (p : SecretPattern) (hp : p ∈ secretPatterns)
    (hne : scanSecrets p code ≠ []) :
    secretViolation p code ∈ checkSecrets code := by
  unfold checkSecrets
  apply List.mem_filterMap.mpr
  refine ⟨p, hp, ?_⟩
  have he : (scanSecrets p code).isEmpty = false := by
    rcases h : scanSecrets p code with _ | _
    · exact absurd h hne
    · rfl
  simp [he, secretViolation]

theorem validatePre_secret_fail (opts : PreOptions) (code : Str) (p : SecretPattern)
    (hp : p ∈ secretPatterns) (hsec : opts.enableSecurityChecks = true)
    (hmatch : scanSecrets p code ≠ []) :
    (validatePre opts code).passed = false ∧
    secretViolation p code ∈ (validatePre opts code).violations := by
  have hcode : code.isEmpty = false := by
    rcases code with _ | ⟨c, cs⟩
    · exact absurd rfl hmatch
    · rfl
  have hv := checkSecrets_mem code p hp hmatch
  have hmem : secretViolation p code ∈ (validatePre opts code).violations := by
    unfold validatePre
    rw [hcode]
    simp only [Bool.false_eq_true, if_false, hsec, if_true]
    exact List.mem_append_left _ (List.mem_append_left _ (List.mem_append_left _
      (List.mem_append_left _ hv)))
  refine ⟨?_, hmem⟩
  unfold validatePre at hmem ⊢
  rw [hcode] at hmem ⊢
  simp only [Bool.false_eq_true, if_false, hsec, if_true] at hmem ⊢
  cases hstrict : opts.strictMode
  · simp only [Bool.false_eq_true, if_false]
    have hf : secretViolation p code ∈
        List.filter (fun v => v.severity == "CRITICAL")
          ((checkSecrets code ++ checkSQLInjection code ++ checkXSS code ++
            checkCommandInjection code) ++
           if opts.enablePerformanceChecks = true then
             checkHashMapViolations code ++ checkPerformanceAntiPatterns code
           else []) :=
      List.mem_filter.mpr ⟨hmem, by rfl⟩
    rcases h : List.filter (fun v => v.severity == "CRITICAL")
        ((checkSecrets code ++ checkSQLInjection code ++ checkXSS code ++
          checkCommandInjection code) ++
         if opts.enablePerformanceChecks = true then
           checkHashMapViolations code ++ checkPerformanceAntiPatterns code
         else []) with _ | _
    · rw [h] at hf
      simp at hf
    · rw [h]
      rfl
  · simp only [if_true]
    rcases h : ((checkSecrets code ++ checkSQLInjection code ++ checkXSS code ++
        checkCommandInjection code) ++
       if opts.enablePerformanceChecks = true then
         checkHashMapViolations code ++ checkPerformanceAntiPatterns code
       else []) with _ | _
    · rw [h] at hmem
      simp at hmem
    · rfl

/-- The password pattern (first entry of the catalog). -/
def pwPattern : SecretPattern := ⟨"password", [strOf "password", strOf "pwd"], 4⟩

/-- A secret assignment whose quoted literal has length exactly 4. -/
def pw4 : Str := strOf "password = \"abcd\""

/-- A secret assignment whose quoted literal is longer than 4 characters. -/
def pwLong : Str := strOf "password = \"supersecret\""

end PatternValidator

/-!
## The claims
-/

open PatternValidator TruthScoring ValidationHooks SPARCIntegration ClaudeFlowAdapter



namespace PatternValidator

/-- Code exercising the 15-point and 20-point deductions of validatePost. -/
def leakyAsyncCode : Str := strOf "async () => \x7b await fetch(url); setInterval(poll, 1000); \x7d"

end PatternValidator

/-- C9: for every input from which a code string can be extracted (with
quality checks enabled), validatePost starts from 100 and deducts exactly 15
when async/await code lacks try/catch or .catch handling, exactly 5 when
hardcoded literals are found, and exactly 20 when a leak pattern is found;
the returned qualityScore is floored at 0 and the verdict is passed = true
iff the returned quality score is at least 70. -/
theorem C9_theorem (opts : PreOptions) (input : JsInput) (code : Str)
    (hcode : extractCode input = some code) (hne : code.isEmpty = false)
    (hq : opts.enableQualityChecks = true) :
    (validatePost opts input).qualityScore =
      max 0 (100 - (if (checkErrorHandling code).hasProperHandling then 0 else 15)
        - (if (checkHardcodedValues code).found then 5 else 0)
        - (if (checkMemoryLeaks code).potential then 20 else 0)) ∧
    ((validatePost opts input).passed = true ↔ 70 ≤ (validatePost opts input).qualityScore) := by
  have hv : validatePost opts input =
      (let errorHandling := checkErrorHandling code
       let hardcoded := checkHardcodedValues code
       let memoryLeaks := checkMemoryLeaks code
       let issues : List Issue :=
        (if errorHandling.hasProperHandling then [] else
          [{ itype := "missing_error_handling", severity := "MEDIUM",
             message := errorHandling.message,
             suggestion := "Add try-catch blocks or .catch() for promises" }]) ++
        (if hardcoded.found then
          [{ itype := "hardcoded_values", severity := "LOW",
             message := hardcoded.message, hits := some hardcoded.hits,
             suggestion := "Move hardcoded values to configuration" }]
         else []) ++
        (if memoryLeaks.potential then
          [{ itype := "potential_memory_leak", severity := "HIGH",
             message := memoryLeaks.message,
             suggestion := "Ensure proper cleanup of intervals and event listeners" }]
         else [])
       let score : ℤ := 100 -
        (if errorHandling.hasProperHandling then 0 else 15) -
        (if hardcoded.found then 5 else 0) -
        (if memoryLeaks.potential then 20 else 0)
       { passed := 70 ≤ score, qualityScore := max 0 score, issues := issues }) := by
    unfold validatePost
    rw [hcode]
    simp only [hne, hq, Bool.not_false, Bool.and_self, if_true]
  rw [hv]
  simp only []
  constructor
  · trivial
  · constructor
    · intro hp
      have : (70:ℤ) ≤ 100 -
          (if (checkErrorHandling code).hasProperHandling then (0:ℤ) else 15) -
          (if (checkHardcodedValues code).found then (5:ℤ) else 0) -
          (if (checkMemoryLeaks code).potential then (20:ℤ) else 0) := by
        exact_mod_cast of_decide_eq_true hp
      omega
    · intro hs
      apply decide_eq_true
      omega

/-- C9 witness: the theorem at a concrete async-and-leaky input, where the
deductions are 15 and 20 and the result fails the 70 threshold. -/
theorem C9_witness :
    (validatePost {} (.obj (some leakyAsyncCode) none none)).qualityScore =
      max 0 (100 - (if (checkErrorHandling leakyAsyncCode).hasProperHandling then 0 else 15)
        - (if (checkHardcodedValues leakyAsyncCode).found then 5 else 0)
        - (if (checkMemoryLeaks leakyAsyncCode).potential then 20 else 0)) ∧
    ((validatePost {} (.obj (some leakyAsyncCode) none none)).passed = true ↔
      70 ≤ (validatePost {} (.obj (some leakyAsyncCode) none none)).qualityScore) :=
  C9_theorem {} (.obj (some leakyAsyncCode) none none) leakyAsyncCode rfl (by decide) rfl


/-- A clean input: no pattern-rule matches, no quality deductions. -/
def cleanCode : Str := strOf "let x = 1"

/-- C1 counterexample.  On a clean input the Pattern Validator finds zero
violations and post-validation deducts nothing (quality 100), yet
calculateScore returns overallScore 0.96, not 1.0 (status is still
"excellent"): the source reads preResult.performanceCompliant, a field
validatePre never returns, so the performance component is 0.8 in every run,
latency-compliant ones included. -/
theorem C1_counterexample :
    (validatePre {} cleanCode).violations = [] ∧
    (validatePost {} (.obj (some cleanCode) none none)).qualityScore = 100 ∧
    (calculateScore {} cleanCode).overallScore = 96 / 100 ∧
    (calculateScore {} cleanCode).overallScore ≠ 1 ∧
    (calculateScore {} cleanCode).status = "excellent" := by
  have h1 : validatePre {} cleanCode =
      { passed := true, violations := [], criticalCount := some 0, totalCount := some 0 } := by
    decide
  have h2 : validatePost {} (.obj (some cleanCode) none none) =
      { passed := true, qualityScore := 100, issues := [] } := by
    decide
  have hsec1 : calculateSecurityScore (validatePre {} cleanCode) = 1 := by
    rw [h1]
    rfl
  have harg : calculateSecurityScore (validatePre {} cleanCode) * 0.5 +
      ((validatePost {} (.obj (some cleanCode) none none)).qualityScore : ℚ) / 100 * 0.3 +
      0.8 * 0.2 = (960 : ℚ) / 1000 := by
    rw [hsec1, h2]
    norm_num
  have h960 : roundTo3 ((960 : ℚ) / 1000) = (960 : ℚ) / 1000 := by
    have h := roundTo3_thousandths 960
    have he : (((960 : ℤ) : ℚ)) / 1000 = (960 : ℚ) / 1000 := by norm_num
    rw [he] at h
    exact h
  have hov : (calculateScore {} cleanCode).overallScore =
      roundTo3 (calculateSecurityScore (validatePre {} cleanCode) * 0.5 +
        ((validatePost {} (.obj (some cleanCode) none none)).qualityScore : ℚ) / 100 * 0.3 +
        0.8 * 0.2) := rfl
  have hovv : (calculateScore {} cleanCode).overallScore = 96 / 100 := by
    rw [hov, harg, h960]
    norm_num
  refine ⟨by rw [h1], by rw [h2], hovv, by rw [hovv]; norm_num, ?_⟩
  have hstat : (calculateScore {} cleanCode).status =
      getScoreStatus {} (calculateSecurityScore (validatePre {} cleanCode) * 0.5 +
        ((validatePost {} (.obj (some cleanCode) none none)).qualityScore : ℚ) / 100 * 0.3 +
        0.8 * 0.2) := rfl
  rw [hstat, harg]
  unfold getScoreStatus
  rw [if_pos (by norm_num)]

/-- C1 (amended): the composite equals round3(0.5·security + 0.3·quality +
0.2·performance) with the performance component always 0.8 — validatePre
never returns the performanceCompliant field the source consults, so the
latency-budget condition can never yield 1.0; security is
max(0, 1 − 0.3·criticalCount − 0.15·highCount − 0.05·mediumCount) and
quality is qualityScore/100; on clean input (zero violations, quality 100)
the overall score is 0.96 with status "excellent", not 1.0. -/
theorem C1_theorem (opts : TSOptions) (code : Str) :
    (calculateScore opts code).overallScore =
      roundTo3 (calculateSecurityScore (validatePre {} code) * 0.5 +
        ((validatePost {} (.obj (some code) none none)).qualityScore : ℚ) / 100 * 0.3 +
        0.8 * 0.2) ∧
    calculateSecurityScore (validatePre {} code) =
      max 0 (1 -
        (((validatePre {} code).violations.filter fun v => v.severity == "CRITICAL").length : ℚ) * 0.3 -
        (((validatePre {} code).violations.filter fun v => v.severity == "HIGH").length : ℚ) * 0.15 -
        (((validatePre {} code).violations.filter fun v => v.severity == "MEDIUM").length : ℚ) * 0.05) ∧
    ((validatePre {} code).violations = [] →
      (validatePost {} (.obj (some code) none none)).qualityScore = 100 →
      (calculateScore opts code).overallScore = 96 / 100 ∧
      (calculateScore opts code).status = "excellent") := by
  have hsec : calculateSecurityScore (validatePre {} code) =
      max 0 (1 -
        (((validatePre {} code).violations.filter fun v => v.severity == "CRITICAL").length : ℚ) * 0.3 -
        (((validatePre {} code).violations.filter fun v => v.severity == "HIGH").length : ℚ) * 0.15 -
        (((validatePre {} code).violations.filter fun v => v.severity == "MEDIUM").length : ℚ) * 0.05) := by
    unfold calculateSecurityScore
    rcases h : (validatePre {} code).violations with _ | ⟨v, vs⟩
    · simp [h]
    · simp only [List.isEmpty_cons, Bool.and_false, Bool.false_eq_true, if_false]
  have hov : (calculateScore opts code).overallScore =
      roundTo3 (calculateSecurityScore (validatePre {} code) * 0.5 +
        ((validatePost {} (.obj (some code) none none)).qualityScore : ℚ) / 100 * 0.3 +
        0.8 * 0.2) := rfl
  refine ⟨hov, hsec, ?_⟩
  intro hclean hq
  have hsec1 : calculateSecurityScore (validatePre {} code) = 1 := by
    rw [hsec, hclean]
    norm_num
  have h960 : roundTo3 ((960 : ℚ) / 1000) = (960 : ℚ) / 1000 := by
    have h := roundTo3_thousandths 960
    have he : (((960 : ℤ) : ℚ)) / 1000 = (960 : ℚ) / 1000 := by norm_num
    rw [he] at h
    exact h
  have harg : calculateSecurityScore (validatePre {} code) * 0.5 +
      ((validatePost {} (.obj (some code) none none)).qualityScore : ℚ) / 100 * 0.3 +
      0.8 * 0.2 = (960 : ℚ) / 1000 := by
    rw [hsec1, hq]
    norm_num
  constructor
  · rw [hov, harg, h960]
    norm_num
  · have hstat : (calculateScore opts code).status =
        getScoreStatus opts (calculateSecurityScore (validatePre {} code) * 0.5 +
          ((validatePost {} (.obj (some code) none none)).qualityScore : ℚ) / 100 * 0.3 +
          0.8 * 0.2) := rfl
    rw [hstat, harg]
    unfold getScoreStatus
    rw [if_pos (by norm_num)]

/-- C1 witness: the amended theorem's clean-input consequent at the concrete
clean input. -/
theorem C1_witness :
    (calculateScore {} cleanCode).overallScore = 96 / 100 ∧
    (calculateScore {} cleanCode).status = "excellent" :=
  (C1_theorem {} cleanCode).2.2 (by decide) (by decide)

/-- C2 counterexample.  Two enabled pre-hooks: the first (rank HIGH, so
sorted first) raises, the second is well-behaved.  The error is caught and
logged and causes no veto, but the second enabled hook is never invoked in
that pipeline run — the source's try/catch wraps the whole loop — refuting
the claim that every remaining enabled hook still executes. -/
theorem C2_counterexample :
    tamePreHook.enabled = true ∧
    executePreToolUse false [badPreHook, tamePreHook] "Write" () () =
      { allowed := true, interventions := [], toolName := "Write",
        invoked := ["boom-pre"], hookErrors := ["pre boom"] } ∧
    tamePreHook.id ∉
      (executePreToolUse false [badPreHook, tamePreHook] "Write" () ()).invoked := by
  refine ⟨rfl, rfl, ?_⟩
  have h : (executePreToolUse false [badPreHook, tamePreHook] "Write" () ()).invoked =
      ["boom-pre"] := rfl
  rw [h]
  decide

/-- C2 (amended): when a hook's handler raises during executePreToolUse (in
non-strict mode) or executePostToolUse, and the enabled hooks sorted before
it returned normally, the error is caught and reported as a hookError event
and the raising hook causes no veto — the allowed / valid verdict and the
collected interventions / issues are exactly those produced by the preceding
hooks — but the pipeline run is aborted: the hooks sorted after the raising
hook are not executed in that run. -/
theorem C2_theorem (P C Q R D I : Type)
    (hooks1 : List (Hook (PreHandler P C)))
    (xs1 ys1 : List (Hook (PreHandler P C))) (bad1 : Hook (PreHandler P C)) (e1 : String)
    (t1 : String) (p1 : P) (c1 : C)
    (hooks2 : List (Hook (PostHandler Q R D I)))
    (xs2 ys2 : List (Hook (PostHandler Q R D I))) (bad2 : Hook (PostHandler Q R D I))
    (e2 : String) (t2 : String) (p2 : Q) (res2 : R) (c2 : D)
    (hsort1 : sortHooks hooks1 = xs1 ++ bad1 :: ys1)
    (hxs1 : ∀ h ∈ xs1, h.enabled = true → ∃ v, h.handler t1 p1 c1 = .ok v)
    (hben1 : bad1.enabled = true)
    (hb1 : bad1.handler t1 p1 c1 = .error e1)
    (hsort2 : sortHooks hooks2 = xs2 ++ bad2 :: ys2)
    (hxs2 : ∀ h ∈ xs2, h.enabled = true → ∃ v, h.handler t2 p2 res2 c2 = .ok v)
    (hben2 : bad2.enabled = true)
    (hb2 : bad2.handler t2 p2 res2 c2 = .error e2) :
    (executePreToolUse false hooks1 t1 p1 c1 =
      (let s := runPreHooks false t1 p1 c1 xs1
        { allowed := true, interventions := [], toolName := t1, invoked := [], hookErrors := [] }
       { s with invoked := s.invoked ++ [bad1.id], hookErrors := s.hookErrors ++ [e1] })) ∧
    (executePostToolUse hooks2 t2 p2 res2 c2 =
      (let s := runPostHooks t2 p2 res2 c2 xs2
        { valid := true, issues := [], toolName := t2, invoked := [], hookErrors := [] }
       { s with invoked := s.invoked ++ [bad2.id], hookErrors := s.hookErrors ++ [e2] })) := by
  constructor
  · unfold executePreToolUse
    rw [hsort1]
    exact runPreHooks_raise P C t1 p1 c1 xs1 ys1 bad1 e1 hxs1 hben1 hb1 _
  · unfold executePostToolUse
    rw [hsort2]
    exact runPostHooks_raise Q R D I t2 p2 res2 c2 xs2 ys2 bad2 e2 hxs2 hben2 hb2 _

/-- C2 witness: the amended theorem at the concrete two-hook registries. -/
theorem C2_witness :
    (executePreToolUse false [badPreHook, tamePreHook] "Write" () () =
      (let s := runPreHooks false "Write" () () []
        { allowed := true, interventions := [], toolName := "Write", invoked := [], hookErrors := [] }
       { s with invoked := s.invoked ++ [badPreHook.id],
                hookErrors := s.hookErrors ++ ["pre boom"] })) ∧
    (executePostToolUse [badPostHook, tamePostHook] "Write" () () () =
      (let s := runPostHooks "Write" () () () ([] : List (Hook (PostHandler Unit Unit Unit String)))
        { valid := true, issues := [], toolName := "Write", invoked := [], hookErrors := [] }
       { s with invoked := s.invoked ++ [badPostHook.id],
                hookErrors := s.hookErrors ++ ["post boom"] })) :=
  C2_theorem Unit Unit Unit Unit Unit String
    [badPreHook, tamePreHook] [] [tamePreHook] badPreHook "pre boom" "Write" () ()
    [badPostHook, tamePostHook] [] [tamePostHook] badPostHook "post boom" "Write" () () ()
    rfl (by intro h hm; simp at hm) rfl rfl
    rfl (by intro h hm; simp at hm) rfl rfl

/-- C3 counterexample.  With maxRetries = 3 and an executor that raises on
the very first attempt, orchestrate returns the errored object immediately:
the executor is invoked exactly once (not the four times that retrying until
exhaustion would give), no finalStatus or attempts field is present, and no
further attempt is made — refuting the claim that an executor raise counts as
a failed attempt and the loop continues. -/
theorem C3_counterexample :
    orchestrate {maxRetries := some 3} raisingExec (strOf "task") =
      (.errored "executor unavailable", ⟨1, 0, 0⟩) ∧
    (orchestrate {maxRetries := some 3} raisingExec (strOf "task")).2.execCalls ≠ 4 ∧
    (orchestrate {maxRetries := some 3} raisingExec (strOf "task")).1.finalStatus? = none := by
  have h : orchestrate {maxRetries := some 3} raisingExec (strOf "task") =
      (.errored "executor unavailable", ⟨1, 0, 0⟩) := by
    simp [orchestrate, raisingExec, resolveMaxRetries]
    rw [orchLoop]
    simp [raisingExec]
  refine ⟨h, ?_, ?_⟩
  · rw [h]; decide
  · rw [h]; rfl

/-- C3 (amended): when the executor raises on any attempt k of an orchestrate
call that reaches it — the pre-validation (if any) passed, and each of the
first k − 1 attempts produced a result that failed post-validation — the
raise is caught at the call site and orchestrate returns the errored object
{success: false, error} immediately: exactly k executor invocations and
k − 1 post-validation invocations in total, the raise does not count as a
failed attempt toward maxRetries, no further attempt is made, and the return
carries neither attempts nor finalStatus. -/
theorem C3_theorem (R : Type) (opts : OrchOptions) (cb : Callbacks R) (task : Str)
    (e : String) (k : Nat)
    (hpre : ∀ pre, cb.preValidation = some pre → (pre task).passed = true)
    (hearlier : ∀ j, 0 < j → j < k → ∀ t, ∃ r pv, cb.exec j t = .ok r ∧
        cb.postValidation = some pv ∧ (pv r).passed = false)
    (hraise : ∀ t, cb.exec k t = .error e)
    (hk1 : 1 ≤ k) (hkN : k ≤ resolveMaxRetries opts.maxRetries + 1) :
    (orchestrate opts cb task).1 = .errored e ∧
    (orchestrate opts cb task).2.execCalls = k ∧
    (orchestrate opts cb task).2.postCalls = k - 1 ∧
    (orchestrate opts cb task).1.finalStatus? = none ∧
    (orchestrate opts cb task).1.attempts? = none := by
  have hloop := orchLoop_raise R cb (resolveMaxRetries opts.maxRetries) e k hearlier hraise hkN
    (k - 1) 0 task none (by omega) (by omega)
  have hk0 : k - 0 = k := by omega
  rw [hk0] at hloop
  have hmain : orchestrate opts cb task =
      (.errored e,
        ⟨k, (match cb.preValidation with | some _ => 1 | none => 0), k - 1⟩) := by
    unfold orchestrate
    rcases hp : cb.preValidation with _ | pre
    · simp only []
      rw [hloop]
    · have hpassed := hpre pre hp
      simp only [hpassed, Bool.not_true, Bool.false_eq_true, if_false]
      rw [hloop]
  rw [hmain]
  exact ⟨rfl, rfl, rfl, rfl, rfl⟩

/-- C3 witness: the amended theorem at k = 2 — the executor answers the
first attempt, that result fails post-validation, and the raise on the
second attempt aborts the whole orchestration. -/
theorem C3_witness :
    (orchestrate {maxRetries := some 3} raiseSecond (strOf "task")).1 =
      .errored "gone on retry" ∧
    (orchestrate {maxRetries := some 3} raiseSecond (strOf "task")).2.execCalls = 2 ∧
    (orchestrate {maxRetries := some 3} raiseSecond (strOf "task")).2.postCalls = 1 ∧
    (orchestrate {maxRetries := some 3} raiseSecond (strOf "task")).1.finalStatus? = none ∧
    (orchestrate {maxRetries := some 3} raiseSecond (strOf "task")).1.attempts? = none :=
  C3_theorem Nat {maxRetries := some 3} raiseSecond (strOf "task") "gone on retry" 2
    (fun pre h => Option.noConfusion h)
    (by
      intro j hj hjk t
      have hj1 : j = 1 := by omega
      subst hj1
      exact ⟨7, fun _ => { passed := false, issues := [] }, rfl, rfl, rfl⟩)
    (fun t => rfl)
    (by omega)
    (by decide)


/-- C6 counterexample.  For the input password = "abcd" (a quoted literal of
length exactly 4), validatePre reports the CRITICAL hardcoded_secret
violation, but the violation's matches array contains the original matched
text completely unredacted: the mask callback returns the match unchanged
whenever the captured value's length is at most 4, while the capture group
itself admits values of length exactly 4. -/
theorem C6_counterexample :
    (validatePre {} pw4).passed = false ∧
    (validatePre {} pw4).violations =
      [{ vtype := "hardcoded_secret", pat := some "password", severity := "CRITICAL",
         message := "Hardcoded password detected", hits := some [pw4],
         suggestion := "Use environment variables: process.env.SECRET_NAME" }] := by
  constructor
  · decide
  · decide

/-- C6 (amended): for every input matching a secret pattern (with security
checks enabled), validatePre returns passed = false with a CRITICAL
violation of type hardcoded_secret whose matches are the masked matched
substrings; every captured literal has length at least 4, and whenever its
length is at least 5 the mask keeps only a 2-character prefix and suffix of
the literal and replaces the interior with asterisks — but a literal of
length exactly 4 is passed through unredacted, so the original secret can
appear in the matches array. -/
theorem C6_theorem (opts : PreOptions) (code : Str) (p : SecretPattern)
    (hp : p ∈ secretPatterns) (hsec : opts.enableSecurityChecks = true)
    (hmatch : scanSecrets p code ≠ []) :
    (validatePre opts code).passed = false ∧
    (∃ v ∈ (validatePre opts code).violations,
      v.vtype = "hardcoded_secret" ∧ v.severity = "CRITICAL" ∧
      v.hits = some ((scanSecrets p code).map fun m => maskSecret m.flat)) ∧
    (∀ m ∈ scanSecrets p code, 4 ≤ m.value.length ∧
      (5 ≤ m.value.length →
        maskSecret m.flat = (m.key ++ m.ws1 ++ [m.sep] ++ m.ws2) ++ maskedValue m.value)) := by
  obtain ⟨hfail, hmem⟩ := validatePre_secret_fail opts code p hp hsec hmatch
  refine ⟨hfail, ⟨secretViolation p code, hmem, rfl, rfl, rfl⟩, ?_⟩
  intro m hm
  obtain ⟨g, h4⟩ := scanSecrets_inv p hp code m hm
  refine ⟨h4, fun h5 => ?_⟩
  rw [maskSecret_flat p m g h4, if_neg (by omega)]

/-- C6 witness: the amended theorem at a length-11 secret literal. -/
theorem C6_witness :
    (validatePre {} pwLong).passed = false ∧
    (∃ v ∈ (validatePre {} pwLong).violations,
      v.vtype = "hardcoded_secret" ∧ v.severity = "CRITICAL" ∧
      v.hits = some ((scanSecrets pwPattern pwLong).map fun m => maskSecret m.flat)) ∧
    (∀ m ∈ scanSecrets pwPattern pwLong, 4 ≤ m.value.length ∧
      (5 ≤ m.value.length →
        maskSecret m.flat = (m.key ++ m.ws1 ++ [m.sep] ++ m.ws2) ++ maskedValue m.value)) :=
  C6_theorem {} pwLong pwPattern (by decide) rfl (by decide)

/-- C7 counterexample.  A failing pre-validation blocks, but the blocked
return is {success: false, blocked: true, reason} with NO finalStatus field at
all, refuting the claim that the result carries finalStatus = "blocked". -/
theorem C7_counterexample :
    orchestrate {} failingPre (strOf "task") = (.blocked "blocked by policy", ⟨0, 1, 0⟩) ∧
    (orchestrate {} failingPre (strOf "task")).1.finalStatus? = none ∧
    (orchestrate {} failingPre (strOf "task")).1.finalStatus? ≠ some "blocked" := by
  have h : orchestrate {} failingPre (strOf "task") =
      (.blocked "blocked by policy", ⟨0, 1, 0⟩) := by
    simp [orchestrate, failingPre, resolveMaxRetries]
    decide
  refine ⟨h, rfl, ?_⟩
  rw [h]; decide

/-- C7 (amended): when the supplied pre-validation reports failure it is
invoked exactly once, the executor and post-validation are never invoked, no
retry is consumed, and the result is the blocked object (success: false,
blocked: true, with a reason) — but it carries no finalStatus field, rather
than finalStatus = "blocked". -/
theorem C7_theorem (R : Type) (opts : OrchOptions) (cb : Callbacks R) (task : Str)
    (pre : Str → PreCbResult)
    (hpre : cb.preValidation = some pre)
    (hfail : (pre task).passed = false) :
    (∃ reason, orchestrate opts cb task = (.blocked reason, ⟨0, 1, 0⟩)) ∧
    (orchestrate opts cb task).1.isBlocked = true ∧
    (orchestrate opts cb task).1.finalStatus? = none := by
  unfold orchestrate
  rw [hpre]
  simp [hfail, Outcome.isBlocked, Outcome.finalStatus?]

/-- C7 witness: the amended theorem at the concrete failing pre-validation. -/
theorem C7_witness :
    (∃ reason, orchestrate {} failingPre (strOf "task") = (.blocked reason, ⟨0, 1, 0⟩)) ∧
    (orchestrate {} failingPre (strOf "task")).1.isBlocked = true ∧
    (orchestrate {} failingPre (strOf "task")).1.finalStatus? = none :=
  C7_theorem Nat {} failingPre (strOf "task") _ rfl rfl


/-- C4 counterexample.  With maxRetries = 0 and an always-failing
post-validation, the executor is invoked 4 times and attempts = 4, not the
claimed 0 + 1 = 1: the source resolves the retry budget with
options.maxRetries || 3, and the number 0 is falsy in JS, so maxRetries = 0
silently becomes the default 3. -/
theorem C4_counterexample :
    (orchestrate {maxRetries := some 0} alwaysFailPost (strOf "task")).1.attempts? = some 4 ∧
    (orchestrate {maxRetries := some 0} alwaysFailPost (strOf "task")).2.execCalls = 4 ∧
    (orchestrate {maxRetries := some 0} alwaysFailPost (strOf "task")).1.attempts? ≠ some 1 := by
  obtain ⟨p, hp⟩ := orchLoop_allFail Nat alwaysFailPost _ 3 rfl (fun _ => rfl)
    (fun a _ => ⟨a, rfl⟩) 3 0 (strOf "task") none rfl (by omega)
  have h : orchestrate {maxRetries := some 0} alwaysFailPost (strOf "task") =
      ((Outcome.finished (some p) 4 3 "max_retries_exceeded"), ⟨4, 0, 4⟩) := by
    unfold orchestrate
    have h1 : alwaysFailPost.preValidation = (none : Option (Str → PreCbResult)) := rfl
    rw [h1]
    have hres : resolveMaxRetries (some 0) = 3 := rfl
    simp only [hres, hp]
  rw [h]
  refine ⟨rfl, rfl, ?_⟩
  simp [Outcome.attempts?]

/-- C4 (amended): for every maxRetries = N with N at least 1 and a supplied
post-validation that always reports failure (with a never-raising executor
and no pre-validation), orchestrate terminates after exactly N + 1 executor
invocations and returns attempts = N + 1 with
finalStatus = "max_retries_exceeded".  For N = 0 the source's
options.maxRetries || 3 replaces the falsy 0 with the default 3, so the loop
performs 4 invocations instead of 1. -/
theorem C4_theorem (R : Type) (cb : Callbacks R) (pv : R → PostCbResult) (task : Str)
    (N : Nat) (hN : 1 ≤ N)
    (hpre : cb.preValidation = none)
    (hpv : cb.postValidation = some pv)
    (hfail : ∀ r, (pv r).passed = false)
    (hexec : ∀ a t, ∃ r, cb.exec a t = .ok r) :
    ∃ p, orchestrate {maxRetries := some N} cb task =
      (.finished (some p) (N + 1) N "max_retries_exceeded", ⟨N + 1, 0, N + 1⟩) := by
  obtain ⟨p, hp⟩ := orchLoop_allFail R cb pv N hpv hfail hexec N 0 task none rfl (by omega)
  refine ⟨p, ?_⟩
  unfold orchestrate
  rw [hpre]
  simp only [resolveMaxRetries_pos N hN, hp]

/-- C4 witness: the amended theorem at N = 1 with the concrete always-failing
post-validation. -/
theorem C4_witness :
    ∃ p, orchestrate {maxRetries := some 1} alwaysFailPost (strOf "task") =
      (.finished (some p) 2 1 "max_retries_exceeded", ⟨2, 0, 2⟩) :=
  C4_theorem Nat alwaysFailPost _ (strOf "task") 1 (by decide) rfl rfl
    (fun _ => rfl) (fun a _ => ⟨a, rfl⟩)

/-- C5 counterexample.  validatePhase with an unknown phase name does not
reject: it returns normally with the structured failure object
{valid: false, error: "Unknown phase: ..."}, refuting the claim that it
raises. -/
theorem C5_counterexample :
    validatePhase {} ⟨none⟩ "bogus" (fun _ => .absent) none =
      .ok (.unknown "Unknown phase: bogus", ⟨none⟩) ∧
    (validatePhase {} ⟨none⟩ "bogus" (fun _ => .absent) none).isOk = true := by
  constructor <;> rfl

/-- C5 (amended): registering a non-callable PreToolUse handler raises
immediately; validatePhase with an unknown phase name returns a structured
failure result (valid: false with an Unknown-phase error message) instead of
raising — except when the unknown name is an Object.prototype property name
(toString, valueOf, constructor, ...): there the prototype-chain lookup
this.phases[phase] finds a truthy inherited value, the unknown-phase guard
is passed, and validatePhase raises a TypeError iterating
phaseConfig.requiredOutputs. -/
theorem C5_theorem (H : Type) (hooks : List (Hook H)) (id : String)
    (opts : HookOptions) (sopts : SPARCOptions) (st : SPARCState) (phase : String)
    (outputs : Outputs) (vld : Option (Outputs → Except String ValidatorResult))
    (hunknown : phaseLookup phase = none) :
    registerPreToolUse hooks id (.notFunction) opts =
      .error ("PreToolUse hook '" ++ id ++ "' must be a function") ∧
    (protoPhaseKeys.contains phase = false →
      validatePhase sopts st phase outputs vld =
        .ok (.unknown ("Unknown phase: " ++ phase), st)) ∧
    (protoPhaseKeys.contains phase = true →
      validatePhase sopts st phase outputs vld =
        .error ("TypeError: phaseConfig.requiredOutputs is not iterable")) := by
  refine ⟨rfl, ?_, ?_⟩
  · intro hnp
    unfold validatePhase
    simp only [hunknown]
    rw [if_neg (by rw [hnp]; exact Bool.false_ne_true)]
  · intro hpk
    unfold validatePhase
    simp only [hunknown]
    rw [if_pos hpk]

/-- C5 witness: the amended theorem at a concrete registry, at the plain
unknown phase name "bogus" (structured failure) and at the Object.prototype
name "toString" (TypeError raise). -/
theorem C5_witness :
    registerPreToolUse ([] : List (Hook Unit)) "h1" (.notFunction) {} =
      .error ("PreToolUse hook 'h1' must be a function") ∧
    validatePhase {} ⟨none⟩ "bogus" (fun _ => .absent) none =
      .ok (.unknown ("Unknown phase: bogus"), ⟨none⟩) ∧
    validatePhase {} ⟨none⟩ "toString" (fun _ => .absent) none =
      .error ("TypeError: phaseConfig.requiredOutputs is not iterable") :=
  ⟨(C5_theorem Unit [] "h1" {} {} ⟨none⟩ "bogus" (fun _ => .absent) none rfl).1,
   (C5_theorem Unit [] "h1" {} {} ⟨none⟩ "bogus" (fun _ => .absent) none rfl).2.1 rfl,
   (C5_theorem Unit [] "h1" {} {} ⟨none⟩ "toString" (fun _ => .absent) none rfl).2.2 rfl⟩


/-- C8: validatePhase advances the workflow to the next phase in the fixed
sequence only when the computed score reaches that phase's quality gate
(0.85 for specification and pseudocode, 0.90 for architecture and completion,
0.95 for refinement); whenever the returned score is below the gate, the
workflow state is unchanged, the result carries remediation guidance, and the
phase is reported failed. -/
theorem C8_theorem (opts : SPARCOptions) (st : SPARCState) (phase : String)
    (outputs : Outputs) (vld : Option (Outputs → Except String ValidatorResult))
    (cfg : PhaseConfig) (r : PhaseOutcome) (st' : SPARCState)
    (hcfg : phaseLookup phase = some cfg)
    (hrun : validatePhase opts st phase outputs vld = .ok (.outcome r, st')) :
    (phaseList.map fun pc => (pc.1, pc.2.qualityGate)) =
      [("specification", 0.85), ("pseudocode", 0.85), ("architecture", 0.90),
       ("refinement", 0.95), ("completion", 0.90)] ∧
    (r.score < cfg.qualityGate → st' = st ∧ r.remediation.isSome = true ∧ r.passed = false) ∧
    (r.passed = true ↔ cfg.qualityGate ≤ r.score) ∧
    (st' ≠ st → cfg.qualityGate ≤ r.score) ∧
    (∀ w, st.currentWorkflow = some w → w.currentPhase = some phase →
      cfg.qualityGate ≤ r.score →
      st' = ⟨some { w with
        completedPhases := w.completedPhases ++ [phase]
        phaseResults := setResult phase r w.phaseResults
        currentPhase := getNextPhase phase }⟩) := by
  refine ⟨rfl, ?_⟩
  unfold validatePhase at hrun
  rw [hcfg] at hrun
  simp only [] at hrun
  rcases hc : runCustomValidator opts outputs vld with e | ⟨ci, cd⟩
  · simp only [hc] at hrun
    exact absurd hrun (by simp)
  · simp only [hc] at hrun
    obtain ⟨cc, hcc⟩ := runCustomValidator_shape opts outputs vld ci cd hc
    have hsd := validatePhaseSpecific_shape phase outputs
    have hround : roundTo3 ((0 : ℚ) ⊔ (1 -
        ((List.filter (fun x => !truthyOut (outputs x)) cfg.requiredOutputs).length : ℚ) * 0.2 -
        cd - (validatePhaseSpecific phase outputs).2)) =
        (0 : ℚ) ⊔ (1 -
        ((List.filter (fun x => !truthyOut (outputs x)) cfg.requiredOutputs).length : ℚ) * 0.2 -
        cd - (validatePhaseSpecific phase outputs).2) := by
      rw [hcc]
      exact roundTo3_phase_score _ cc _ hsd
    split at hrun
    · rename_i hpass
      simp only [Except.ok.injEq, Prod.mk.injEq, PhaseReturn.outcome.injEq] at hrun
      obtain ⟨hr, hst⟩ := hrun
      subst hr
      subst hst
      refine ⟨?_, ?_, ?_, ?_⟩
      · intro hlt
        rw [hround] at hlt
        exact absurd hpass (not_le.mpr hlt)
      · simp only [hround]
        simp [hpass]
      · intro _
        simp only [hround]
        exact hpass
      · intro w hw hcp _
        rw [hw]
        have hbeq : (w.currentPhase == some phase) = true := by
          simp [hcp]
        simp only [hbeq, if_true]
    · rename_i hpass
      simp only [Except.ok.injEq, Prod.mk.injEq, PhaseReturn.outcome.injEq] at hrun
      obtain ⟨hr, hst⟩ := hrun
      subst hr
      subst hst
      refine ⟨?_, ?_, ?_, ?_⟩
      · intro _
        refine ⟨rfl, rfl, ?_⟩
        simp [hpass]
      · simp only [hround]
        simp [hpass]
      · intro hne
        exact absurd rfl hne
      · intro w hw hcp hge
        rw [hround] at hge
        exact absurd hge hpass

/-- C8 witness: the theorem at a workflow sitting at the specification phase
with all required outputs present. -/
theorem C8_witness :
    ∃ r st', validatePhase {} wfSpec "specification" specOutputs none = .ok (.outcome r, st') ∧
      ((r.score < (0.85 : ℚ) → st' = wfSpec ∧ r.remediation.isSome = true ∧ r.passed = false) ∧
       (r.passed = true ↔ (0.85 : ℚ) ≤ r.score) ∧
       (st' ≠ wfSpec → (0.85 : ℚ) ≤ r.score) ∧
       (∀ w, wfSpec.currentWorkflow = some w → w.currentPhase = some "specification" →
         (0.85 : ℚ) ≤ r.score →
         st' = ⟨some { w with
           completedPhases := w.completedPhases ++ ["specification"]
           phaseResults := setResult "specification" r w.phaseResults
           currentPhase := getNextPhase "specification" }⟩)) := by
  obtain ⟨r, st', h⟩ := validatePhase_some_ok {} wfSpec "specification" specOutputs
    ⟨"Specification", ["requirements", "constraints", "success_criteria"], 0.85⟩ rfl
  exact ⟨r, st', h,
    (C8_theorem {} wfSpec "specification" specOutputs none
      ⟨"Specification", ["requirements", "constraints", "success_criteria"], 0.85⟩
      r st' rfl h).2⟩

/-- C10: validating a phase other than the active workflow's current phase
(or validating with no active workflow) leaves the workflow state — current
phase, completed phases and phase results — unchanged, even when that
phase's validation passes. -/
theorem C10_theorem (opts : SPARCOptions) (st : SPARCState) (phase : String)
    (outputs : Outputs) (vld : Option (Outputs → Except String ValidatorResult))
    (ret : PhaseReturn) (st' : SPARCState)
    (hrun : validatePhase opts st phase outputs vld = .ok (ret, st'))
    (hmis : ∀ w, st.currentWorkflow = some w → ¬(w.currentPhase = some phase)) :
    st' = st := by
  unfold validatePhase at hrun
  rcases hcfg : phaseLookup phase with _ | cfg
  · simp only [hcfg] at hrun
    split at hrun
    · exact absurd hrun (by simp)
    · simp at hrun
      exact hrun.2.symm
  · rw [hcfg] at hrun
    simp only [] at hrun
    rcases hc : runCustomValidator opts outputs vld with e | ⟨ci, cd⟩
    · simp only [hc] at hrun
      exact absurd hrun (by simp)
    · simp only [hc] at hrun
      split at hrun
      · rcases hw : st.currentWorkflow with _ | w
        · rw [hw] at hrun
          simp at hrun
          exact hrun.2.symm
        · rw [hw] at hrun
          have hne : (w.currentPhase == some phase) = false := by
            have := hmis w hw
            simp [this]
          simp only [hne, Bool.false_eq_true, if_false] at hrun
          simp at hrun
          exact hrun.2.symm
      · simp at hrun
        exact hrun.2.symm

/-- C10 witness: the theorem at a workflow whose current phase is
specification while the pseudocode phase (which passes on these outputs) is
validated; the state is unchanged. -/
theorem C10_witness :
    ∃ ret st', validatePhase {} wfSpec "pseudocode" specOutputs none = .ok (ret, st') ∧
      st' = wfSpec := by
  obtain ⟨r, st', h⟩ := validatePhase_some_ok {} wfSpec "pseudocode" specOutputs
    ⟨"Pseudocode", ["algorithm_design", "data_structures"], 0.85⟩ rfl
  refine ⟨.outcome r, st', h, ?_⟩
  apply C10_theorem {} wfSpec "pseudocode" specOutputs none (.outcome r) st' h
  intro w hw
  have hc : wfSpec.currentWorkflow = some wfSpecWorkflow := rfl
  rw [hc] at hw
  rw [(Option.some_inj.mp hw).symm]
  decide

end CFES
